import Mathlib

/-! Screen shake and wave effect bindings of `src/shaders.c`.

A shallow embedding of the two extension functions `apply_screen_shake` and
`apply_wave_effect`.

Both functions are straight-line sequences of calls into the Python runtime and
into pygame.  The runtime and pygame are not part of the repository, so they are
taken as a parameter (`Host`): an arbitrary, stateful oracle that answers every
call.  The embedding threads the host state, the error indicator of the
interpreter and a trace of the Python-level calls that were made
(`PyObject_CallMethod`, `PyImport_ImportModule`).  A call that raises leaves its
exception pending; a call that returns a result leaves no exception pending.
Reference counting (`Py_INCREF`, `Py_DECREF`) has no observable effect in this
model and is left out.

The shake offset is computed in C `double` arithmetic.  Finite doubles are
modelled as the rationals they denote, products are rounded to binary64
(round to nearest, ties to even), and `sin` / `cos` of the C math library are a
parameter (`Libm`).  Converting a double to `int` truncates toward zero and is
undefined when the truncated value is not a 32-bit integer.
-/

namespace Shaders

/-! ## Python objects, errors, host calls -/

/-- Python objects are identified by their address. -/
abbrev Obj := Nat

/-- An exception: its type and its message. -/
structure PyErr where
  kind : String
  msg : String
deriving DecidableEq, Repr

/-- The outcome of a call into the runtime: a value, or a raised exception. -/
inductive Reply (α : Type) where
  | ok (v : α)
  | raised (e : PyErr)
deriving DecidableEq, Repr

/-- The exception carried by a reply, if any. -/
def Reply.error? {α : Type} (r : Reply α) : Option PyErr :=
  match r with
  | .raised e => some e
  | .ok _ => none

/-- The values the module builds from a `PyObject_CallMethod` format string: a
C `int` (unit `i`), an object (unit `O`), or a tuple of two ints (`(ii)`). -/
inductive PyVal where
  | int (n : Int)
  | obj (o : Obj)
  | intPair (a b : Int)
deriving DecidableEq, Repr

/-- The positional arguments of a `PyObject_CallMethod` call, from the values
its format builds: when the format builds a single tuple, that tuple is the
argument tuple itself; otherwise the values built are the arguments. -/
def positionalArgs (built : List PyVal) : List PyVal :=
  match built with
  | [.intPair a b] => [.int a, .int b]
  | _ => built

/-- The Python-level calls the module makes (`PyObject_CallMethod` and
`PyImport_ImportModule`), with their arguments:
* `get_size self` is `self.get_size()`;
* `importModule name` is `import name`;
* `Surface module args` is `module.Surface(*args)`, with the list of positional
  arguments, so `Surface(w, h)` has `args = [int w, int h]` and `Surface((w, h))`
  has `args = [intPair w h]`;
* `blit dest src x y` is `dest.blit(src, (x, y))`;
* `array3d module surface` is `module.array3d(surface)`. -/
inductive Call where
  | get_size (self : Obj)
  | importModule (name : String)
  | Surface (module : Obj) (args : List PyVal)
  | blit (dest src : Obj) (x y : Int)
  | array3d (module : Obj) (surface : Obj)
deriving DecidableEq, Repr

/-- One entry of the call trace: the call and what the host answered. -/
structure Event where
  call : Call
  reply : Reply Obj
deriving DecidableEq, Repr

/-- A C `float` argument as delivered by the `f` format unit. -/
inductive CFloat where
  | finite (q : ℚ)
  | inf (negative : Bool)
  | nan
deriving DecidableEq

/-- The Python runtime together with pygame, as seen by the module.  `σ` is the
host's own state.
* `parseTuple_Oii`, `parseTuple_Offf`: `PyArg_ParseTuple` on the argument tuple
  with the formats `"Oii"` and `"Offf"`;
* `hasAttr`: `PyObject_HasAttrString`;
* `perform`: the answer to a Python-level call, and the host state after it;
* `itemAsLong`: `PyLong_AsLong(PyTuple_GetItem(t, i))`, i.e. the C `long` that
  comes back (`-1` when it fails) and the exception it raised, if any. -/
structure Host (σ : Type) where
  parseTuple_Oii : σ → Obj → Reply (Obj × Int × Int)
  parseTuple_Offf : σ → Obj → Reply (Obj × CFloat × CFloat × CFloat)
  hasAttr : σ → Obj → String → Bool
  perform : σ → Call → Reply Obj × σ
  itemAsLong : σ → Obj → Nat → (Int × Option PyErr) × σ

/-- What a C function of the module hands back: a `PyObject*`, `NULL`, or
nothing meaningful because the execution ran into undefined behaviour. -/
inductive Ret where
  | object (o : Obj)
  | null
  | undefined
deriving DecidableEq, Repr

/-- The observable state during a call: the host state, the error indicator and
the trace of Python-level calls made so far (oldest first). -/
structure World (σ : Type) where
  host : σ
  err : Option PyErr
  trace : List Event

/-- State at entry of an extension function: no pending error, empty trace. -/
def World.enter {σ : Type} (s : σ) : World σ := ⟨s, none, []⟩

/-- Effect of `PyErr_SetString`, or of an exception raised by the runtime. -/
def World.raise {σ : Type} (w : World σ) (e : PyErr) : World σ :=
  { w with err := some e }

/-- Make a Python-level call: the host answers and the call is appended to the
trace.  A raised exception becomes the pending error; a call that returns a
result leaves no exception pending. -/
def World.invoke {σ : Type} (H : Host σ) (w : World σ) (c : Call) : Reply Obj × World σ :=
  let r := H.perform w.host c
  (r.1, { host := r.2, err := r.1.error?, trace := w.trace ++ [⟨c, r.1⟩] })

/-- The assignment `int v = PyLong_AsLong(PyTuple_GetItem(t, i))`: the `long`
is narrowed to a 32-bit `int`.  The code does not check for an exception raised
on the way; it stays pending until the next Python-level call. -/
def wrapInt32 (v : Int) : Int := (v + 2 ^ 31) % 2 ^ 32 - 2 ^ 31

/-- Read item `i` of the size tuple into a C `int`. -/
def World.readInt {σ : Type} (H : Host σ) (w : World σ) (t : Obj) (i : Nat) : Int × World σ :=
  let r := H.itemAsLong w.host t i
  (wrapInt32 r.1.1, { host := r.2,
                      err := match r.1.2 with
                        | some e => some e
                        | none => w.err,
                      trace := w.trace })

/-- Values of C type `int`. -/
def isInt32 (n : Int) : Prop := -2 ^ 31 ≤ n ∧ n ≤ 2 ^ 31 - 1

instance (n : Int) : Decidable (isInt32 n) := by unfold isInt32; infer_instance

/-! ## C double arithmetic -/

/-- Round a rational to the nearest integer, ties to the even one. -/
def roundHalfEven (x : ℚ) : Int :=
  if x - ⌊x⌋ < 1 / 2 then ⌊x⌋
  else if 1 / 2 < x - ⌊x⌋ then ⌊x⌋ + 1
  else if ⌊x⌋ % 2 = 0 then ⌊x⌋ else ⌊x⌋ + 1

/-- Exponent of the binade of `x` in binary64: `⌊log₂ |x|⌋`, but not below the
exponent `-1022` of the subnormal range. -/
def binade (x : ℚ) : Int := max (Int.log 2 |x|) (-1022)

/-- Spacing of the binary64 numbers around `x` (53 significant bits). -/
def ulp (x : ℚ) : ℚ := (2 : ℚ) ^ (binade x - 52)

/-- The binary64 number nearest to `x` (ties to even), ignoring overflow. -/
def roundDouble (x : ℚ) : ℚ := roundHalfEven (x / ulp x) * ulp x

/-- A C `double`: `some q` is the finite double of value `q`, `none` stands for
the non-finite ones (infinities and NaN). -/
abbrev Double := Option ℚ

/-- Round an exact result to a double; magnitudes of `2 ^ 1024` and more
overflow. -/
def toDouble (x : ℚ) : Double :=
  if |roundDouble x| < 2 ^ 1024 then some (roundDouble x) else none

/-- The C operator `*` on doubles. -/
def dmul (a b : Double) : Double :=
  match a, b with
  | some x, some y => toDouble (x * y)
  | _, _ => none

/-- Conversion of an `int` to `double`; exact, since 32-bit integers have fewer
than 53 bits. -/
def ofInt (n : Int) : Double := some (n : ℚ)

/-- The literal `0.5`. -/
def lit_0_5 : Double := toDouble (1 / 2)

/-- The literal `0.7`: the double nearest to 7/10. -/
def lit_0_7 : Double := toDouble (7 / 10)

/-- The functions `sin` and `cos` of the C math library on finite doubles. -/
structure Libm where
  sin : ℚ → ℚ
  cos : ℚ → ℚ

/-- Lift a math-library function to all doubles: a non-finite argument gives a
non-finite result. -/
def Libm.app (f : ℚ → ℚ) (x : Double) : Double := x.map f

/-- Rounding toward zero. -/
def truncQ (x : ℚ) : Int := if 0 ≤ x then ⌊x⌋ else ⌈x⌉

/-- The cast `(int)d`: truncation toward zero, undefined (`none`) when the
double is not finite or the truncated value is not an `int`. -/
def toCInt (d : Double) : Option Int :=
  match d with
  | some x => if -2 ^ 31 ≤ truncQ x ∧ truncQ x ≤ 2 ^ 31 - 1 then some (truncQ x) else none
  | none => none

/-- The expression `(int)(sin(frame * 0.5) * amplitude)`. -/
def offset_x (L : Libm) (amplitude frame : Int) : Option Int :=
  toCInt (dmul (Libm.app L.sin (dmul (ofInt frame) lit_0_5)) (ofInt amplitude))

/-- The expression `(int)(cos(frame * 0.7) * amplitude)`. -/
def offset_y (L : Libm) (amplitude frame : Int) : Option Int :=
  toCInt (dmul (Libm.app L.cos (dmul (ofInt frame) lit_0_7)) (ofInt amplitude))

/-! ## The two extension functions -/

/-- The exception `apply_screen_shake` raises itself. -/
def notASurface : PyErr := ⟨"TypeError", "First argument must be a pygame Surface"⟩

/-- The function `apply_screen_shake(self, args)`. -/
def apply_screen_shake {σ : Type} (H : Host σ) (L : Libm) (args : Obj) (s : σ) :
    Ret × World σ :=
  let w := World.enter s
  match H.parseTuple_Oii w.host args with
  | .raised e => (.null, w.raise e)
  | .ok (surface, amplitude, frame) =>
    if H.hasAttr w.host surface "get_size" = false then
      (.null, w.raise notASurface)
    else
      match World.invoke H w (.get_size surface) with
      | (.raised _, w1) => (.null, w1)
      | (.ok size_tuple, w1) =>
        let (width, w2) := World.readInt H w1 size_tuple 0
        let (height, w3) := World.readInt H w2 size_tuple 1
        match World.invoke H w3 (.importModule "pygame") with
        | (.raised _, w4) => (.null, w4)
        | (.ok pygame_module, w4) =>
          match World.invoke H w4
              (.Surface pygame_module (positionalArgs [.intPair width height])) with
          | (.raised _, w5) => (.null, w5)
          | (.ok new_surface, w5) =>
            match offset_x L amplitude frame, offset_y L amplitude frame with
            | some ox, some oy =>
              match World.invoke H w5 (.blit new_surface surface ox oy) with
              | (.raised _, w6) => (.null, w6)
              | (.ok _, w6) => (.object new_surface, w6)
            | _, _ => (.undefined, w5)

/-- The function `apply_wave_effect(self, args)`. -/
def apply_wave_effect {σ : Type} (H : Host σ) (args : Obj) (s : σ) : Ret × World σ :=
  let w := World.enter s
  match H.parseTuple_Offf w.host args with
  | .raised e => (.null, w.raise e)
  | .ok (surface, _time, _amplitude, _frequency) =>
    match World.invoke H w (.get_size surface) with
    | (.raised _, w1) => (.null, w1)
    | (.ok size_tuple, w1) =>
      let (width, w2) := World.readInt H w1 size_tuple 0
      let (height, w3) := World.readInt H w2 size_tuple 1
      match World.invoke H w3 (.importModule "pygame") with
      | (.raised _, w4) => (.null, w4)
      | (.ok pygame_module, w4) =>
        match World.invoke H w4 (.importModule "pygame.surfarray") with
        | (.raised _, w5) => (.null, w5)
        | (.ok surfarray_module, w5) =>
          match World.invoke H w5
              (.Surface pygame_module (positionalArgs [.intPair width height])) with
          | (.raised _, w6) => (.null, w6)
          | (.ok new_surface, w6) =>
            let (src_array, w7) := World.invoke H w6 (.array3d surfarray_module surface)
            let (dst_array, w8) := World.invoke H w7 (.array3d surfarray_module new_surface)
            match src_array, dst_array with
            | .ok _, .ok _ => (.object surface, w8)
            | _, _ => (.null, w8)


/-! ## Execution paths

Every run of the two functions follows one of finitely many paths, determined
by where the first failure occurs.  The relations below list them, with the
answers of the host that select each path; `apply_screen_shake_path` and
`apply_wave_effect_path` show that the functions follow them. -/

section
variable {σ : Type}

/-- The paths of `apply_screen_shake` once the arguments are parsed as
`(surface, amplitude, frame)`. -/
inductive ShakePath (H : Host σ) (L : Libm) (s : σ) (surface : Obj) (amplitude frame : Int) :
    Ret × World σ → Prop where
  | noAttr :
      H.hasAttr s surface "get_size" = false →
      ShakePath H L s surface amplitude frame (.null, ⟨s, some notASurface, []⟩)
  | sizeFails (e : PyErr) (s1 : σ) :
      H.hasAttr s surface "get_size" = true →
      H.perform s (.get_size surface) = (.raised e, s1) →
      ShakePath H L s surface amplitude frame
        (.null, ⟨s1, some e, [⟨.get_size surface, .raised e⟩]⟩)
  | importFails (t : Obj) (s1 : σ) (v0 v1 : Int) (e0 e1 : Option PyErr) (s2 s3 : σ)
      (e : PyErr) (s4 : σ) :
      H.hasAttr s surface "get_size" = true →
      H.perform s (.get_size surface) = (.ok t, s1) →
      H.itemAsLong s1 t 0 = ((v0, e0), s2) →
      H.itemAsLong s2 t 1 = ((v1, e1), s3) →
      H.perform s3 (.importModule "pygame") = (.raised e, s4) →
      ShakePath H L s surface amplitude frame
        (.null, ⟨s4, some e,
          [⟨.get_size surface, .ok t⟩, ⟨.importModule "pygame", .raised e⟩]⟩)
  | surfaceFails (t : Obj) (s1 : σ) (v0 v1 : Int) (e0 e1 : Option PyErr) (s2 s3 : σ)
      (m : Obj) (s4 : σ) (e : PyErr) (s5 : σ) :
      H.hasAttr s surface "get_size" = true →
      H.perform s (.get_size surface) = (.ok t, s1) →
      H.itemAsLong s1 t 0 = ((v0, e0), s2) →
      H.itemAsLong s2 t 1 = ((v1, e1), s3) →
      H.perform s3 (.importModule "pygame") = (.ok m, s4) →
      H.perform s4 (.Surface m [.int (wrapInt32 v0), .int (wrapInt32 v1)]) = (.raised e, s5) →
      ShakePath H L s surface amplitude frame
        (.null, ⟨s5, some e,
          [⟨.get_size surface, .ok t⟩, ⟨.importModule "pygame", .ok m⟩,
           ⟨.Surface m [.int (wrapInt32 v0), .int (wrapInt32 v1)], .raised e⟩]⟩)
  | castUndefined (t : Obj) (s1 : σ) (v0 v1 : Int) (e0 e1 : Option PyErr) (s2 s3 : σ)
      (m : Obj) (s4 : σ) (n : Obj) (s5 : σ) :
      H.hasAttr s surface "get_size" = true →
      H.perform s (.get_size surface) = (.ok t, s1) →
      H.itemAsLong s1 t 0 = ((v0, e0), s2) →
      H.itemAsLong s2 t 1 = ((v1, e1), s3) →
      H.perform s3 (.importModule "pygame") = (.ok m, s4) →
      H.perform s4 (.Surface m [.int (wrapInt32 v0), .int (wrapInt32 v1)]) = (.ok n, s5) →
      (offset_x L amplitude frame = none ∨ offset_y L amplitude frame = none) →
      ShakePath H L s surface amplitude frame
        (.undefined, ⟨s5, none,
          [⟨.get_size surface, .ok t⟩, ⟨.importModule "pygame", .ok m⟩,
           ⟨.Surface m [.int (wrapInt32 v0), .int (wrapInt32 v1)], .ok n⟩]⟩)
  | blitFails (t : Obj) (s1 : σ) (v0 v1 : Int) (e0 e1 : Option PyErr) (s2 s3 : σ)
      (m : Obj) (s4 : σ) (n : Obj) (s5 : σ) (ox oy : Int) (e : PyErr) (s6 : σ) :
      H.hasAttr s surface "get_size" = true →
      H.perform s (.get_size surface) = (.ok t, s1) →
      H.itemAsLong s1 t 0 = ((v0, e0), s2) →
      H.itemAsLong s2 t 1 = ((v1, e1), s3) →
      H.perform s3 (.importModule "pygame") = (.ok m, s4) →
      H.perform s4 (.Surface m [.int (wrapInt32 v0), .int (wrapInt32 v1)]) = (.ok n, s5) →
      offset_x L amplitude frame = some ox →
      offset_y L amplitude frame = some oy →
      H.perform s5 (.blit n surface ox oy) = (.raised e, s6) →
      ShakePath H L s surface amplitude frame
        (.null, ⟨s6, some e,
          [⟨.get_size surface, .ok t⟩, ⟨.importModule "pygame", .ok m⟩,
           ⟨.Surface m [.int (wrapInt32 v0), .int (wrapInt32 v1)], .ok n⟩,
           ⟨.blit n surface ox oy, .raised e⟩]⟩)
  | done (t : Obj) (s1 : σ) (v0 v1 : Int) (e0 e1 : Option PyErr) (s2 s3 : σ)
      (m : Obj) (s4 : σ) (n : Obj) (s5 : σ) (ox oy : Int) (b : Obj) (s6 : σ) :
      H.hasAttr s surface "get_size" = true →
      H.perform s (.get_size surface) = (.ok t, s1) →
      H.itemAsLong s1 t 0 = ((v0, e0), s2) →
      H.itemAsLong s2 t 1 = ((v1, e1), s3) →
      H.perform s3 (.importModule "pygame") = (.ok m, s4) →
      H.perform s4 (.Surface m [.int (wrapInt32 v0), .int (wrapInt32 v1)]) = (.ok n, s5) →
      offset_x L amplitude frame = some ox →
      offset_y L amplitude frame = some oy →
      H.perform s5 (.blit n surface ox oy) = (.ok b, s6) →
      ShakePath H L s surface amplitude frame
        (.object n, ⟨s6, none,
          [⟨.get_size surface, .ok t⟩, ⟨.importModule "pygame", .ok m⟩,
           ⟨.Surface m [.int (wrapInt32 v0), .int (wrapInt32 v1)], .ok n⟩,
           ⟨.blit n surface ox oy, .ok b⟩]⟩)


/-- The paths of `apply_wave_effect` once the arguments are parsed; `surface`
is the first argument.  The two `array3d` calls are made back to back and
checked together, so after a failed first call the pending error is whatever
the second call leaves. -/
inductive WavePath (H : Host σ) (s : σ) (surface : Obj) : Ret × World σ → Prop where
  | sizeFails (e : PyErr) (s1 : σ) :
      H.perform s (.get_size surface) = (.raised e, s1) →
      WavePath H s surface (.null, ⟨s1, some e, [⟨.get_size surface, .raised e⟩]⟩)
  | importFails (t : Obj) (s1 : σ) (v0 v1 : Int) (e0 e1 : Option PyErr) (s2 s3 : σ)
      (e : PyErr) (s4 : σ) :
      H.perform s (.get_size surface) = (.ok t, s1) →
      H.itemAsLong s1 t 0 = ((v0, e0), s2) →
      H.itemAsLong s2 t 1 = ((v1, e1), s3) →
      H.perform s3 (.importModule "pygame") = (.raised e, s4) →
      WavePath H s surface
        (.null, ⟨s4, some e,
          [⟨.get_size surface, .ok t⟩, ⟨.importModule "pygame", .raised e⟩]⟩)
  | surfarrayFails (t : Obj) (s1 : σ) (v0 v1 : Int) (e0 e1 : Option PyErr) (s2 s3 : σ)
      (m : Obj) (s4 : σ) (e : PyErr) (s5 : σ) :
      H.perform s (.get_size surface) = (.ok t, s1) →
      H.itemAsLong s1 t 0 = ((v0, e0), s2) →
      H.itemAsLong s2 t 1 = ((v1, e1), s3) →
      H.perform s3 (.importModule "pygame") = (.ok m, s4) →
      H.perform s4 (.importModule "pygame.surfarray") = (.raised e, s5) →
      WavePath H s surface
        (.null, ⟨s5, some e,
          [⟨.get_size surface, .ok t⟩, ⟨.importModule "pygame", .ok m⟩,
           ⟨.importModule "pygame.surfarray", .raised e⟩]⟩)
  | surfaceFails (t : Obj) (s1 : σ) (v0 v1 : Int) (e0 e1 : Option PyErr) (s2 s3 : σ)
      (m : Obj) (s4 : σ) (a : Obj) (s5 : σ) (e : PyErr) (s6 : σ) :
      H.perform s (.get_size surface) = (.ok t, s1) →
      H.itemAsLong s1 t 0 = ((v0, e0), s2) →
      H.itemAsLong s2 t 1 = ((v1, e1), s3) →
      H.perform s3 (.importModule "pygame") = (.ok m, s4) →
      H.perform s4 (.importModule "pygame.surfarray") = (.ok a, s5) →
      H.perform s5 (.Surface m [.int (wrapInt32 v0), .int (wrapInt32 v1)]) = (.raised e, s6) →
      WavePath H s surface
        (.null, ⟨s6, some e,
          [⟨.get_size surface, .ok t⟩, ⟨.importModule "pygame", .ok m⟩,
           ⟨.importModule "pygame.surfarray", .ok a⟩,
           ⟨.Surface m [.int (wrapInt32 v0), .int (wrapInt32 v1)], .raised e⟩]⟩)
  | srcArrayFails (t : Obj) (s1 : σ) (v0 v1 : Int) (e0 e1 : Option PyErr) (s2 s3 : σ)
      (m : Obj) (s4 : σ) (a : Obj) (s5 : σ) (n : Obj) (s6 : σ)
      (ea : PyErr) (s7 : σ) (rb : Reply Obj) (s8 : σ) :
      H.perform s (.get_size surface) = (.ok t, s1) →
      H.itemAsLong s1 t 0 = ((v0, e0), s2) →
      H.itemAsLong s2 t 1 = ((v1, e1), s3) →
      H.perform s3 (.importModule "pygame") = (.ok m, s4) →
      H.perform s4 (.importModule "pygame.surfarray") = (.ok a, s5) →
      H.perform s5 (.Surface m [.int (wrapInt32 v0), .int (wrapInt32 v1)]) = (.ok n, s6) →
      H.perform s6 (.array3d a surface) = (.raised ea, s7) →
      H.perform s7 (.array3d a n) = (rb, s8) →
      WavePath H s surface
        (.null, ⟨s8, rb.error?,
          [⟨.get_size surface, .ok t⟩, ⟨.importModule "pygame", .ok m⟩,
           ⟨.importModule "pygame.surfarray", .ok a⟩,
           ⟨.Surface m [.int (wrapInt32 v0), .int (wrapInt32 v1)], .ok n⟩,
           ⟨.array3d a surface, .raised ea⟩, ⟨.array3d a n, rb⟩]⟩)
  | dstArrayFails (t : Obj) (s1 : σ) (v0 v1 : Int) (e0 e1 : Option PyErr) (s2 s3 : σ)
      (m : Obj) (s4 : σ) (a : Obj) (s5 : σ) (n : Obj) (s6 : σ)
      (src : Obj) (s7 : σ) (eb : PyErr) (s8 : σ) :
      H.perform s (.get_size surface) = (.ok t, s1) →
      H.itemAsLong s1 t 0 = ((v0, e0), s2) →
      H.itemAsLong s2 t 1 = ((v1, e1), s3) →
      H.perform s3 (.importModule "pygame") = (.ok m, s4) →
      H.perform s4 (.importModule "pygame.surfarray") = (.ok a, s5) →
      H.perform s5 (.Surface m [.int (wrapInt32 v0), .int (wrapInt32 v1)]) = (.ok n, s6) →
      H.perform s6 (.array3d a surface) = (.ok src, s7) →
      H.perform s7 (.array3d a n) = (.raised eb, s8) →
      WavePath H s surface
        (.null, ⟨s8, some eb,
          [⟨.get_size surface, .ok t⟩, ⟨.importModule "pygame", .ok m⟩,
           ⟨.importModule "pygame.surfarray", .ok a⟩,
           ⟨.Surface m [.int (wrapInt32 v0), .int (wrapInt32 v1)], .ok n⟩,
           ⟨.array3d a surface, .ok src⟩, ⟨.array3d a n, .raised eb⟩]⟩)
  | done (t : Obj) (s1 : σ) (v0 v1 : Int) (e0 e1 : Option PyErr) (s2 s3 : σ)
      (m : Obj) (s4 : σ) (a : Obj) (s5 : σ) (n : Obj) (s6 : σ)
      (src : Obj) (s7 : σ) (dst : Obj) (s8 : σ) :
      H.perform s (.get_size surface) = (.ok t, s1) →
      H.itemAsLong s1 t 0 = ((v0, e0), s2) →
      H.itemAsLong s2 t 1 = ((v1, e1), s3) →
      H.perform s3 (.importModule "pygame") = (.ok m, s4) →
      H.perform s4 (.importModule "pygame.surfarray") = (.ok a, s5) →
      H.perform s5 (.Surface m [.int (wrapInt32 v0), .int (wrapInt32 v1)]) = (.ok n, s6) →
      H.perform s6 (.array3d a surface) = (.ok src, s7) →
      H.perform s7 (.array3d a n) = (.ok dst, s8) →
      WavePath H s surface
        (.object surface, ⟨s8, none,
          [⟨.get_size surface, .ok t⟩, ⟨.importModule "pygame", .ok m⟩,
           ⟨.importModule "pygame.surfarray", .ok a⟩,
           ⟨.Surface m [.int (wrapInt32 v0), .int (wrapInt32 v1)], .ok n⟩,
           ⟨.array3d a surface, .ok src⟩, ⟨.array3d a n, .ok dst⟩]⟩)


end

/-! ## Properties of a run, and concrete hosts -/

section
variable {σ : Type}

/-- Failure propagation for a run: a failed call makes the function return
`NULL`; every call before the last one succeeded, so nothing is called after a
failed call; and when the last call failed its exception is the pending one. -/
def PropagatesFailure (out : Ret × World σ) : Prop :=
  (∀ ev ∈ out.2.trace, ∀ e, ev.reply = .raised e → out.1 = .null) ∧
  (∀ ev ∈ out.2.trace.dropLast, ∃ o, ev.reply = .ok o) ∧
  (∀ c e, out.2.trace.getLast? = some ⟨c, .raised e⟩ → out.2.err = some e)

/-- The error of a failed run comes from the runtime: whenever the function
returns `NULL`, the pending exception was raised by argument parsing or by one
of the calls in the trace. -/
def ErrorFromHost (parseErr : Option PyErr) (out : Ret × World σ) : Prop :=
  out.1 = .null →
    ∃ e, out.2.err = some e ∧ (parseErr = some e ∨ ∃ ev ∈ out.2.trace, ev.reply = .raised e)

end

/-- Whether a call is a `blit`. -/
def Call.isBlit (c : Call) : Bool :=
  match c with
  | .blit _ _ _ _ => true
  | _ => false

/-- A host in which every call succeeds.  Object `0` is the argument tuple and
object `1` the surface passed in, a 640 x 480 surface; the tuple holds amplitude
`10` and frame `1`.  The state counts the objects the host has created, and the
next object created gets the address `state + 2`. -/
def okHost : Host Nat where
  parseTuple_Oii := fun _ _ => .ok (1, 10, 1)
  parseTuple_Offf := fun _ _ => .ok (1, .finite 0, .finite 5, .finite 2)
  hasAttr := fun _ _ _ => true
  perform := fun s _ => (.ok (s + 2), s + 1)
  itemAsLong := fun s _ i => ((if i = 0 then 640 else 480, none), s)

/-- A host like `okHost` whose input surface is 1920 x 1080. -/
def wideHost : Host Nat where
  parseTuple_Oii := fun _ _ => .ok (1, 10, 1)
  parseTuple_Offf := fun _ _ => .ok (1, .finite 0, .finite 5, .finite 2)
  hasAttr := fun _ _ _ => true
  perform := fun s _ => (.ok (s + 2), s + 1)
  itemAsLong := fun s _ i => ((if i = 0 then 1920 else 1080, none), s)

/-- A host whose first argument is an object without a `get_size` attribute. -/
def noSizeHost : Host Nat where
  parseTuple_Oii := fun _ _ => .ok (1, 10, 1)
  parseTuple_Offf := fun _ _ => .ok (1, .finite 0, .finite 5, .finite 2)
  hasAttr := fun _ _ _ => false
  perform := fun s _ => (.ok (s + 2), s + 1)
  itemAsLong := fun s _ i => ((if i = 0 then 640 else 480, none), s)

/-- A host like `okHost`, except that `array3d` raises on the surface passed
in (object `1`). -/
def srcArrayFailHost : Host Nat where
  parseTuple_Oii := fun _ _ => .ok (1, 10, 1)
  parseTuple_Offf := fun _ _ => .ok (1, .finite 0, .finite 5, .finite 2)
  hasAttr := fun _ _ _ => true
  perform := fun s c =>
    match c with
    | .array3d _ 1 => (.raised ⟨"ValueError", "unsupported bit depth"⟩, s)
    | _ => (.ok (s + 2), s + 1)
  itemAsLong := fun s _ i => ((if i = 0 then 640 else 480, none), s)

/-- A math library given by a table: the values at the few arguments used
below, each within `1 / 100` of the true sine or cosine (and `-1` at
`-165707065 / 2`, where the true sine is less than `2 ^ (-54)` away from `-1`). -/
def tableLibm : Libm where
  sin := fun x =>
    if x = 1 / 2 then 479 / 1000
    else if x = 7 / 2 then -351 / 1000
    else if x = -165707065 / 2 then -1
    else 0
  cos := fun x =>
    if x = 3152519739159347 / 4503599627370496 then 765 / 1000
    else 1

/-! ## Facts about the double arithmetic -/

theorem roundHalfEven_intCast (n : Int) : roundHalfEven (n : ℚ) = n := by
  simp [roundHalfEven]

theorem floor_neg_of_ne (x : ℚ) (h : x ≠ ⌊x⌋) : ⌊-x⌋ = -⌊x⌋ - 1 := by
  rw [Int.floor_eq_iff]
  have h1 := Int.floor_le x
  have h2 := Int.lt_floor_add_one x
  have h3 : (⌊x⌋ : ℚ) < x := lt_of_le_of_ne h1 (Ne.symm h)
  push_cast
  constructor <;> linarith

theorem roundHalfEven_neg (x : ℚ) : roundHalfEven (-x) = -roundHalfEven x := by
  by_cases h : x = ⌊x⌋
  · rw [h, ← Int.cast_neg, roundHalfEven_intCast, roundHalfEven_intCast]
  · have hf := floor_neg_of_ne x h
    have h1 := Int.floor_le x
    have h2 := Int.lt_floor_add_one x
    have h3 : (⌊x⌋ : ℚ) < x := lt_of_le_of_ne h1 (Ne.symm h)
    unfold roundHalfEven
    rw [hf]
    push_cast
    split_ifs <;> first | omega | (exfalso; linarith)


theorem roundHalfEven_le (x : ℚ) (N : Int) (h : x ≤ N) : roundHalfEven x ≤ N := by
  have h1 := Int.floor_le x
  have hfl : ⌊x⌋ ≤ N := by
    have : (⌊x⌋ : ℚ) ≤ N := le_trans h1 h
    exact_mod_cast this
  have hstep : 0 < x - ⌊x⌋ → ⌊x⌋ + 1 ≤ N := by
    intro hpos
    have : (⌊x⌋ : ℚ) < N := by linarith
    have : ⌊x⌋ < N := by exact_mod_cast this
    omega
  unfold roundHalfEven
  split_ifs with c1 c2 c3
  · exact hfl
  · exact hstep (by linarith)
  · exact hfl
  · exact hstep (by linarith)

theorem le_roundHalfEven (x : ℚ) (N : Int) (h : (N : ℚ) ≤ x) : N ≤ roundHalfEven x := by
  have hfl : N ≤ ⌊x⌋ := Int.le_floor.mpr h
  unfold roundHalfEven
  split_ifs <;> omega

theorem binade_neg (x : ℚ) : binade (-x) = binade x := by
  simp [binade, abs_neg]

theorem ulp_neg (x : ℚ) : ulp (-x) = ulp x := by
  simp [ulp, binade_neg]

theorem ulp_pos (x : ℚ) : 0 < ulp x := by
  unfold ulp
  positivity

theorem roundDouble_neg (x : ℚ) : roundDouble (-x) = -roundDouble x := by
  unfold roundDouble
  rw [ulp_neg, neg_div, roundHalfEven_neg]
  push_cast
  ring

/-- Rounding never crosses a point of the grid of spacing `ulp x`. -/
theorem roundDouble_le_grid (x : ℚ) (k : Int) (h : x ≤ k * ulp x) :
    roundDouble x ≤ k * ulp x := by
  have hu := ulp_pos x
  have hk : x / ulp x ≤ k := by
    rw [div_le_iff₀ hu]
    exact h
  have := roundHalfEven_le _ _ hk
  unfold roundDouble
  have hc : (roundHalfEven (x / ulp x) : ℚ) ≤ k := by exact_mod_cast this
  exact mul_le_mul_of_nonneg_right hc hu.le

theorem grid_le_roundDouble (x : ℚ) (k : Int) (h : k * ulp x ≤ x) :
    k * ulp x ≤ roundDouble x := by
  have hu := ulp_pos x
  have hk : (k : ℚ) ≤ x / ulp x := by
    rw [le_div_iff₀ hu]
    exact h
  have := le_roundHalfEven _ _ hk
  unfold roundDouble
  have hc : (k : ℚ) ≤ roundHalfEven (x / ulp x) := by exact_mod_cast this
  exact mul_le_mul_of_nonneg_right hc hu.le

theorem roundDouble_grid (x : ℚ) (k : Int) (h : x = k * ulp x) : roundDouble x = x := by
  apply le_antisymm
  · have := roundDouble_le_grid x k h.le
    rw [← h] at this
    exact this
  · have := grid_le_roundDouble x k h.ge
    rw [← h] at this
    exact this

/-- The binade exponent of a number below `2 ^ (e + 1)` is at most `e`. -/
theorem binade_le (x : ℚ) (e : Int) (he : -1022 ≤ e) (hx : x ≠ 0 ∨ 0 ≤ e)
    (h : |x| < 2 ^ (e + 1)) : binade x ≤ e := by
  unfold binade
  apply max_le _ he
  rcases eq_or_lt_of_le (abs_nonneg x) with h0 | hpos
  · rw [← h0, Int.log_zero_right]
    rcases hx with hx | hx
    · exact absurd (abs_eq_zero.mp h0.symm) hx
    · exact hx
  · have := (Int.lt_zpow_iff_log_lt (R := ℚ) (b := 2) (by norm_num) hpos (x := e + 1)).mp
      (by exact_mod_cast h)
    omega

/-- The binade exponent of a number of magnitude in `[2 ^ e, 2 ^ (e + 1))`. -/
theorem binade_eq (x : ℚ) (e : Int) (he : -1022 ≤ e) (h1 : 2 ^ e ≤ |x|)
    (h2 : |x| < 2 ^ (e + 1)) : binade x = e := by
  have hpos : 0 < |x| := lt_of_lt_of_le (by positivity) h1
  have hx : x ≠ 0 := abs_pos.mp hpos
  apply le_antisymm (binade_le x e he (.inl hx) h2)
  unfold binade
  apply le_max_of_le_left
  exact (Int.zpow_le_iff_le_log (R := ℚ) (b := 2) (by norm_num) hpos (x := e)).mp
    (by exact_mod_cast h1)

/-- When the binade exponent is at most `e`, every multiple of `2 ^ (e - 52)`
lies on the rounding grid. -/
theorem grid_of_binade_le (x : ℚ) (e : Int) (h : binade x ≤ e) (m : Int) :
    ∃ k : Int, (m : ℚ) * 2 ^ (e - 52) = k * ulp x := by
  refine ⟨m * 2 ^ (e - binade x).toNat, ?_⟩
  unfold ulp
  have hn : ((e - binade x).toNat : Int) = e - binade x := Int.toNat_of_nonneg (by omega)
  have h2 : (2 : ℚ) ^ (e - 52) = 2 ^ ((e - binade x).toNat : Int) * 2 ^ (binade x - 52) := by
    rw [← zpow_add₀ (by norm_num : (2 : ℚ) ≠ 0), hn]
    congr 1
    ring
  rw [h2, zpow_natCast]
  push_cast
  ring

/-- Dyadic numbers with a significand below `2 ^ 53` are doubles: rounding
leaves them unchanged. -/
theorem roundDouble_dyadic (m : Int) (j : Nat) (hj : j ≤ 1074) (hm : |m| < 2 ^ 53) :
    roundDouble ((m : ℚ) / 2 ^ j) = (m : ℚ) / 2 ^ j := by
  by_cases h0 : m = 0
  · subst h0
    simp [roundDouble, roundHalfEven]
  have hx : (m : ℚ) / 2 ^ j ≠ 0 := by
    apply div_ne_zero
    · exact_mod_cast h0
    · positivity
  have hb : binade ((m : ℚ) / 2 ^ j) ≤ 52 - j := by
    apply binade_le _ _ (by omega) (.inl hx)
    rw [abs_div, abs_of_pos (by positivity : (0 : ℚ) < 2 ^ j), div_lt_iff₀ (by positivity)]
    have hm' : |(m : ℚ)| < 2 ^ 53 := by exact_mod_cast hm
    have : (2 : ℚ) ^ ((52 : Int) - j + 1) * 2 ^ j = 2 ^ 53 := by
      rw [← zpow_natCast (2 : ℚ) j, ← zpow_add₀ (by norm_num : (2 : ℚ) ≠ 0)]
      have : (52 : Int) - j + 1 + j = (53 : Nat) := by push_cast; ring
      rw [this, zpow_natCast]
    rw [this]
    exact hm'
  obtain ⟨k, hk⟩ := grid_of_binade_le _ _ hb m
  apply roundDouble_grid _ k
  rw [← hk]
  have : (2 : ℚ) ^ ((52 : Int) - j - 52) = (2 ^ j)⁻¹ := by
    rw [← zpow_natCast (2 : ℚ) j, ← zpow_neg]
    congr 1
    ring
  rw [this]
  ring

theorem roundDouble_intCast (n : Int) (hn : |n| < 2 ^ 53) : roundDouble (n : ℚ) = n := by
  have := roundDouble_dyadic n 0 (by omega) hn
  simpa using this

/-- Rounding keeps a number of magnitude at most `N ≤ 2 ^ 52` within `[-N, N]`. -/
theorem abs_roundDouble_le (x : ℚ) (N : Int) (hN : N ≤ 2 ^ 52) (h : |x| ≤ N) :
    |roundDouble x| ≤ N := by
  have hN' : (N : ℚ) ≤ 2 ^ 52 := by exact_mod_cast hN
  have hb : binade x ≤ 52 := by
    apply binade_le _ _ (by omega) (.inr (by omega))
    have : (2 : ℚ) ^ ((52 : Int) + 1) = 2 ^ 53 := by norm_num
    rw [this]
    calc |x| ≤ N := h
      _ ≤ 2 ^ 52 := hN'
      _ < 2 ^ 53 := by norm_num
  have hx := abs_le.mp h
  rw [abs_le]
  constructor
  · obtain ⟨k, hk⟩ := grid_of_binade_le x 52 hb (-N)
    have := grid_le_roundDouble x k (by rw [← hk]; simpa using hx.1)
    rw [← hk] at this
    simpa using this
  · obtain ⟨k, hk⟩ := grid_of_binade_le x 52 hb N
    have := roundDouble_le_grid x k (by rw [← hk]; simpa using hx.2)
    rw [← hk] at this
    simpa using this

theorem truncQ_neg (x : ℚ) : truncQ (-x) = -truncQ x := by
  unfold truncQ
  rcases lt_trichotomy x 0 with h | h | h
  · rw [if_pos (by linarith), if_neg (by linarith), Int.floor_neg]
  · subst h
    simp
  · rw [if_neg (by linarith), if_pos (by linarith), Int.ceil_neg]

theorem abs_truncQ_le (x : ℚ) (N : Int) (h : |x| ≤ N) : |truncQ x| ≤ N := by
  have hx := abs_le.mp h
  unfold truncQ
  rw [abs_le]
  split_ifs with h0
  · constructor
    · have : 0 ≤ ⌊x⌋ := Int.floor_nonneg.mpr h0
      have : (0 : ℚ) ≤ N := le_trans (abs_nonneg x) h
      have : 0 ≤ N := by exact_mod_cast this
      omega
    · have : (⌊x⌋ : ℚ) ≤ N := le_trans (Int.floor_le x) hx.2
      exact_mod_cast this
  · push_neg at h0
    constructor
    · have h1 : ((-N : Int) : ℚ) ≤ x := by push_cast; exact hx.1
      have h2 : ((-N : Int) : ℚ) ≤ ⌈x⌉ := le_trans h1 (Int.le_ceil x)
      exact_mod_cast h2
    · have : ⌈x⌉ ≤ 0 := Int.ceil_le.mpr (by simpa using h0.le)
      have : (0 : ℚ) ≤ N := le_trans (abs_nonneg x) h
      have : 0 ≤ N := by exact_mod_cast this
      omega


/-! ## True values of sine and cosine at the arguments used below -/


theorem sin_half_bounds : (4759 / 10000 : ℝ) ≤ Real.sin (1 / 2) ∧ Real.sin (1 / 2) ≤ 4825 / 10000 := by
  have h := Real.sin_bound (x := 1 / 2) (by rw [abs_of_pos] <;> norm_num)
  rw [abs_le] at h
  rw [abs_of_pos (by norm_num : (0 : ℝ) < 1 / 2)] at h
  constructor <;> norm_num at h ⊢ <;> linarith [h.1, h.2]

theorem cos_d07_bounds :
    (755 / 1000 : ℝ) ≤ Real.cos (3152519739159347 / 4503599627370496) ∧
    Real.cos (3152519739159347 / 4503599627370496) ≤ 7676 / 10000 := by
  have h := Real.cos_bound (x := 3152519739159347 / 4503599627370496)
    (by rw [abs_of_pos] <;> norm_num)
  have hl := Real.one_sub_sq_div_two_le_cos (x := 3152519739159347 / 4503599627370496)
  rw [abs_le] at h
  rw [abs_of_pos (by norm_num : (0 : ℝ) < 3152519739159347 / 4503599627370496)] at h
  constructor <;> norm_num at h hl ⊢ <;> linarith [h.1, h.2]

theorem sin_seven_halves_bounds :
    (-3585 / 10000 : ℝ) ≤ Real.sin (7 / 2) ∧ Real.sin (7 / 2) ≤ -3498 / 10000 := by
  have hlo := Real.pi_gt_d4
  have hhi := Real.pi_lt_d4
  have ht0 : (0 : ℝ) ≤ 7 / 2 - Real.pi := by linarith
  have ht1 : 7 / 2 - Real.pi ≤ 3585 / 10000 := by linarith
  have ht2 : (3584 / 10000 : ℝ) ≤ 7 / 2 - Real.pi := by linarith
  have hs : Real.sin (7 / 2) = -Real.sin (7 / 2 - Real.pi) := by
    rw [Real.sin_sub_pi, neg_neg]
  have hb := Real.sin_bound (x := 7 / 2 - Real.pi) (by rw [abs_of_nonneg ht0]; linarith)
  rw [abs_of_nonneg ht0] at hb
  have hb' := (abs_le.mp hb).1
  have h3 : (7 / 2 - Real.pi) ^ 3 ≤ (3585 / 10000) ^ 3 := pow_le_pow_left₀ ht0 ht1 3
  have h4 : (7 / 2 - Real.pi) ^ 4 ≤ (3585 / 10000) ^ 4 := pow_le_pow_left₀ ht0 ht1 4
  have hup : Real.sin (7 / 2 - Real.pi) ≤ 7 / 2 - Real.pi := Real.sin_le ht0
  rw [hs]
  constructor
  · linarith
  · norm_num at h3 h4
    linarith

/-- The true sine of `165707065 / 2` is within `2 ^ (-54)` of `1`. -/
theorem sin_near_one : 1 - (2 : ℝ) ^ (-54 : Int) < Real.sin (165707065 / 2) := by
  have hlo := Real.pi_gt_d20
  have hhi := Real.pi_lt_d20
  have hd : (165707065 / 2 : ℝ)
      = (165707065 - 52746197 * Real.pi) / 2 + Real.pi / 2
        + (13186549 : Nat) * (2 * Real.pi) := by
    push_cast
    ring
  rw [hd, Real.sin_add_nat_mul_two_pi, Real.sin_add_pi_div_two]
  have h0 : (0 : ℝ) ≤ (165707065 - 52746197 * Real.pi) / 2 := by
    norm_num at hhi
    linarith
  have h1 : (165707065 - 52746197 * Real.pi) / 2 ≤ 5 / 1000000000 := by
    norm_num at hlo
    linarith
  have h2 : ((165707065 - 52746197 * Real.pi) / 2) ^ 2 ≤ (5 / 1000000000) ^ 2 :=
    pow_le_pow_left₀ h0 h1 2
  have hc := Real.one_sub_sq_div_two_le_cos (x := (165707065 - 52746197 * Real.pi) / 2)
  have hp : ((5 : ℝ) / 1000000000) ^ 2 / 2 < 2 ^ (-54 : Int) := by
    norm_num
  linarith

/-- The double nearest to the true sine of `-165707065 / 2` is `-1`: the true
value is less than half a unit in the last place away from it. -/
theorem sin_near_neg_one :
    |Real.sin (-165707065 / 2) - (-1)| < (2 : ℝ) ^ (-54 : Int) := by
  have h := sin_near_one
  have hle := Real.sin_le_one (165707065 / 2)
  have e : Real.sin (-165707065 / 2) = -Real.sin (165707065 / 2) := by
    rw [neg_div, Real.sin_neg]
  rw [e, abs_lt]
  constructor <;> linarith [show (0 : ℝ) < 2 ^ (-54 : Int) by positivity]

/-! ## The operands of the offset formula -/

theorem roundDouble_seven_tenths :
    roundDouble (7 / 10) = 3152519739159347 / 4503599627370496 := by
  have hb : binade (7 / 10) = -1 := by
    apply binade_eq _ _ (by norm_num)
    · rw [abs_of_pos (by norm_num)]
      norm_num
    · rw [abs_of_pos (by norm_num)]
      norm_num
  have hfl : ⌊(7 / 10 : ℚ) / 2 ^ (-1 - 52 : Int)⌋ = 6305039478318694 := by
    rw [Int.floor_eq_iff]
    norm_num
  unfold roundDouble ulp roundHalfEven
  rw [hb, hfl]
  norm_num

/-- The literal `0.5` is exact. -/
theorem lit_0_5_eq : lit_0_5 = some (1 / 2) := by
  have h : roundDouble (1 / 2) = 1 / 2 := by
    have := roundDouble_dyadic 1 1 (by norm_num) (by norm_num)
    simpa using this
  unfold lit_0_5 toDouble
  rw [h, if_pos]
  rw [abs_of_pos (by norm_num)]
  norm_num

/-- The literal `0.7` is the double `3152519739159347 / 2 ^ 52`. -/
theorem lit_0_7_eq : lit_0_7 = some (3152519739159347 / 4503599627370496) := by
  unfold lit_0_7 toDouble
  rw [roundDouble_seven_tenths, if_pos]
  rw [abs_of_pos (by norm_num)]
  norm_num

theorem toDouble_of_abs_le (x : ℚ) (N : Int) (hN : N ≤ 2 ^ 52) (h : |x| ≤ N) :
    toDouble x = some (roundDouble x) := by
  unfold toDouble
  rw [if_pos]
  have h1 := abs_roundDouble_le x N hN h
  have h2 : (N : ℚ) ≤ 2 ^ 52 := by exact_mod_cast hN
  calc |roundDouble x| ≤ N := h1
    _ ≤ 2 ^ 52 := h2
    _ < 2 ^ 1024 := by norm_num

theorem abs_cast_le_of_isInt32 (n : Int) (h : isInt32 n) : |(n : ℚ)| ≤ 2 ^ 31 := by
  have : |n| ≤ 2 ^ 31 := by
    unfold isInt32 at h
    rw [abs_le]
    omega
  exact_mod_cast this

/-- The product `frame * 0.5` is exact. -/
theorem frame_times_half (frame : Int) (hf : isInt32 frame) :
    dmul (ofInt frame) lit_0_5 = some ((frame : ℚ) / 2) := by
  have hexact : roundDouble ((frame : ℚ) * (1 / 2)) = (frame : ℚ) / 2 := by
    have h := roundDouble_dyadic frame 1 (by norm_num) (by
      unfold isInt32 at hf
      rw [abs_lt]
      omega)
    have e : (frame : ℚ) * (1 / 2) = (frame : ℚ) / 2 ^ 1 := by ring
    rw [e, h]
    norm_num
  have hb := abs_cast_le_of_isInt32 frame hf
  rw [lit_0_5_eq]
  unfold ofInt dmul
  simp only
  rw [toDouble_of_abs_le _ (2 ^ 31) (by norm_num), hexact]
  rw [abs_mul, abs_of_pos (by norm_num : (0 : ℚ) < 1 / 2)]
  push_cast
  linarith [abs_nonneg (frame : ℚ)]

/-- The product `frame * 0.7` is a finite double. -/
theorem frame_times_seven_tenths (frame : Int) (hf : isInt32 frame) :
    dmul (ofInt frame) lit_0_7
      = some (roundDouble ((frame : ℚ) * (3152519739159347 / 4503599627370496))) := by
  have hb := abs_cast_le_of_isInt32 frame hf
  rw [lit_0_7_eq]
  unfold ofInt dmul
  simp only
  rw [toDouble_of_abs_le _ (2 ^ 31) (by norm_num)]
  rw [abs_mul, abs_of_pos (by norm_num : (0 : ℚ) < 3152519739159347 / 4503599627370496)]
  push_cast
  nlinarith [abs_nonneg (frame : ℚ)]

/-- The value `offset_x` computes. -/
theorem offset_x_eq (L : Libm) (amplitude frame : Int) (hf : isInt32 frame) :
    offset_x L amplitude frame
      = toCInt (toDouble (L.sin ((frame : ℚ) / 2) * amplitude)) := by
  unfold offset_x
  rw [frame_times_half frame hf]
  rfl

/-- The value `offset_y` computes. -/
theorem offset_y_eq (L : Libm) (amplitude frame : Int) (hf : isInt32 frame) :
    offset_y L amplitude frame
      = toCInt (toDouble
          (L.cos (roundDouble ((frame : ℚ) * (3152519739159347 / 4503599627370496)))
            * amplitude)) := by
  unfold offset_y
  rw [frame_times_seven_tenths frame hf]
  rfl

/-- A factor of magnitude at most one times an `int`: the product is a finite
double, and its truncation is no larger in magnitude than the `int`. -/
theorem scaled_product (c : ℚ) (amplitude : Int) (hc : |c| ≤ 1) (ha : isInt32 amplitude) :
    toDouble (c * amplitude) = some (roundDouble (c * amplitude))
      ∧ |truncQ (roundDouble (c * amplitude))| ≤ |amplitude| := by
  have hN : |amplitude| ≤ 2 ^ 52 := by
    unfold isInt32 at ha
    rw [abs_le]
    omega
  have hp : |c * (amplitude : ℚ)| ≤ (|amplitude| : Int) := by
    rw [abs_mul]
    push_cast
    calc |c| * |(amplitude : ℚ)| ≤ 1 * |(amplitude : ℚ)| :=
          mul_le_mul_of_nonneg_right hc (abs_nonneg _)
      _ = |(amplitude : ℚ)| := one_mul _
  have hr := abs_roundDouble_le _ _ hN hp
  exact ⟨toDouble_of_abs_le _ _ hN hp, abs_truncQ_le _ _ hr⟩

/-- The cast to `int` is defined when the truncated value is in range. -/
theorem toCInt_some (x : ℚ) (h : -2 ^ 31 ≤ truncQ x ∧ truncQ x ≤ 2 ^ 31 - 1) :
    toCInt (some x) = some (truncQ x) := by
  unfold toCInt
  simp only
  rw [if_pos h]

/-- The cast to `int` is undefined when the truncated value is out of range. -/
theorem toCInt_none (x : ℚ) (h : 2 ^ 31 - 1 < truncQ x) : toCInt (some x) = none := by
  unfold toCInt
  simp only
  rw [if_neg]
  omega

/-- Rounding on a known binade stays between the neighbouring grid points. -/
theorem roundDouble_mem_Icc (x : ℚ) (e : Int) (he : -1022 ≤ e) (h1 : 2 ^ e ≤ |x|)
    (h2 : |x| < 2 ^ (e + 1)) (lo hi : Int) (hlo : lo * 2 ^ (e - 52) ≤ x)
    (hhi : x ≤ hi * 2 ^ (e - 52)) :
    lo * 2 ^ (e - 52) ≤ roundDouble x ∧ roundDouble x ≤ hi * 2 ^ (e - 52) := by
  have hu : ulp x = 2 ^ (e - 52) := by
    unfold ulp
    rw [binade_eq x e he h1 h2]
  constructor
  · have := grid_le_roundDouble x lo (by rw [hu]; exact hlo)
    rw [hu] at this
    exact this
  · have := roundDouble_le_grid x hi (by rw [hu]; exact hhi)
    rw [hu] at this
    exact this

/-- A product that rounds into `[n, n + 1)` with `0 ≤ n` converts to `n`. -/
theorem toCInt_toDouble_floor (p : ℚ) (n : Int) (hn0 : 0 ≤ n) (hn : n ≤ 2 ^ 31 - 1)
    (h1 : (n : ℚ) ≤ roundDouble p) (h2 : roundDouble p < n + 1) :
    toCInt (toDouble p) = some n := by
  have hq : (0 : ℚ) ≤ n := by exact_mod_cast hn0
  have hq2 : (n : ℚ) ≤ 2 ^ 31 - 1 := by exact_mod_cast hn
  have hfin : toDouble p = some (roundDouble p) := by
    unfold toDouble
    rw [if_pos]
    rw [abs_of_nonneg (by linarith)]
    calc roundDouble p < n + 1 := h2
      _ ≤ 2 ^ 31 := by linarith
      _ < 2 ^ 1024 := by norm_num
  have ht : truncQ (roundDouble p) = n := by
    unfold truncQ
    rw [if_pos (by linarith), Int.floor_eq_iff]
    exact ⟨h1, h2⟩
  rw [hfin, toCInt_some _ (by rw [ht]; omega), ht]

/-- With `sin(0.5)` accurate to `1 / 100`, amplitude `10` and frame `1` give
`offset_x = 4`. -/
theorem offset_x_10_1 (L : Libm)
    (hs : |((L.sin (1 / 2) : ℚ) : ℝ) - Real.sin (1 / 2)| ≤ 1 / 100) :
    offset_x L 10 1 = some 4 := by
  have hb := sin_half_bounds
  rw [abs_le] at hs
  have hlo : (4659 / 10000 : ℚ) ≤ L.sin (1 / 2) := by
    have : ((4659 / 10000 : ℚ) : ℝ) ≤ L.sin (1 / 2) := by push_cast; linarith [hs.1, hb.1]
    exact_mod_cast this
  have hhi : L.sin (1 / 2) ≤ (4925 / 10000 : ℚ) := by
    have : ((L.sin (1 / 2) : ℚ) : ℝ) ≤ ((4925 / 10000 : ℚ) : ℝ) := by
      push_cast; linarith [hs.2, hb.2]
    exact_mod_cast this
  rw [offset_x_eq L 10 1 (by decide)]
  have harg : ((1 : Int) : ℚ) / 2 = 1 / 2 := by norm_num
  rw [harg]
  have hpos : (0 : ℚ) < L.sin (1 / 2) * ((10 : Int) : ℚ) := by push_cast; linarith
  have hr := roundDouble_mem_Icc (L.sin (1 / 2) * ((10 : Int) : ℚ)) 2 (by norm_num)
    (by rw [abs_of_pos hpos]; push_cast; norm_num; linarith)
    (by rw [abs_of_pos hpos]; push_cast; norm_num; linarith)
    (2 ^ 52) (5 * 2 ^ 50 - 1)
    (by push_cast; norm_num; linarith)
    (by push_cast; norm_num; linarith)
  apply toCInt_toDouble_floor _ 4 (by decide) (by decide)
  · have := hr.1
    norm_num at this
    push_cast
    linarith
  · have := hr.2
    norm_num at this
    push_cast
    linarith

/-- With `cos(0.7)` accurate to `1 / 100`, amplitude `10` and frame `1` give
`offset_y = 7`. -/
theorem offset_y_10_1 (L : Libm)
    (hc : |((L.cos (3152519739159347 / 4503599627370496) : ℚ) : ℝ)
            - Real.cos (3152519739159347 / 4503599627370496)| ≤ 1 / 100) :
    offset_y L 10 1 = some 7 := by
  have hb := cos_d07_bounds
  rw [abs_le] at hc
  have hlo : (7324 / 10000 : ℚ) ≤ L.cos (3152519739159347 / 4503599627370496) := by
    have : ((7324 / 10000 : ℚ) : ℝ) ≤ L.cos (3152519739159347 / 4503599627370496) := by
      push_cast; linarith [hc.1, hb.1]
    exact_mod_cast this
  have hhi : L.cos (3152519739159347 / 4503599627370496) ≤ (7776 / 10000 : ℚ) := by
    have : ((L.cos (3152519739159347 / 4503599627370496) : ℚ) : ℝ)
        ≤ ((7776 / 10000 : ℚ) : ℝ) := by
      push_cast; linarith [hc.2, hb.2]
    exact_mod_cast this
  rw [offset_y_eq L 10 1 (by decide)]
  have harg : roundDouble (((1 : Int) : ℚ) * (3152519739159347 / 4503599627370496))
      = 3152519739159347 / 4503599627370496 := by
    have := roundDouble_dyadic 3152519739159347 52 (by norm_num) (by norm_num)
    norm_num at this ⊢
    exact this
  rw [harg]
  have hpos : (0 : ℚ) < L.cos (3152519739159347 / 4503599627370496) * ((10 : Int) : ℚ) := by
    push_cast; linarith
  have hr := roundDouble_mem_Icc
    (L.cos (3152519739159347 / 4503599627370496) * ((10 : Int) : ℚ)) 2 (by norm_num)
    (by rw [abs_of_pos hpos]; push_cast; norm_num; linarith)
    (by rw [abs_of_pos hpos]; push_cast; norm_num; linarith)
    (7 * 2 ^ 50) (8 * 2 ^ 50 - 1)
    (by push_cast; norm_num; linarith)
    (by push_cast; norm_num; linarith)
  apply toCInt_toDouble_floor _ 7 (by decide) (by decide)
  · have := hr.1
    norm_num at this
    push_cast
    linarith
  · have := hr.2
    norm_num at this
    push_cast
    linarith

theorem tableLibm_sin_le (x : ℚ) : |tableLibm.sin x| ≤ 1 := by
  unfold tableLibm
  simp only
  split_ifs <;> rw [abs_le] <;> constructor <;> norm_num

theorem tableLibm_cos_le (x : ℚ) : |tableLibm.cos x| ≤ 1 := by
  unfold tableLibm
  simp only
  split_ifs <;> rw [abs_le] <;> constructor <;> norm_num

theorem tableLibm_sin_half :
    |((tableLibm.sin (1 / 2) : ℚ) : ℝ) - Real.sin (1 / 2)| ≤ 1 / 100 := by
  have hb := sin_half_bounds
  have e : tableLibm.sin (1 / 2) = 479 / 1000 := by simp [tableLibm]
  rw [e, abs_le]
  push_cast
  constructor <;> linarith [hb.1, hb.2]

theorem tableLibm_sin_seven_halves :
    |((tableLibm.sin (7 / 2) : ℚ) : ℝ) - Real.sin (7 / 2)| ≤ 1 / 100 := by
  have hb := sin_seven_halves_bounds
  have e : tableLibm.sin (7 / 2) = -351 / 1000 := by
    unfold tableLibm
    simp only
    rw [if_neg (by norm_num), if_pos trivial]
  rw [e, abs_le]
  push_cast
  constructor <;> linarith [hb.1, hb.2]

theorem tableLibm_cos_d07 :
    |((tableLibm.cos (3152519739159347 / 4503599627370496) : ℚ) : ℝ)
      - Real.cos (3152519739159347 / 4503599627370496)| ≤ 1 / 100 := by
  have hb := cos_d07_bounds
  have e : tableLibm.cos (3152519739159347 / 4503599627370496) = 765 / 1000 := by
    simp [tableLibm]
  rw [e, abs_le]
  push_cast
  constructor <;> linarith [hb.1, hb.2]

theorem tableLibm_sin_big : tableLibm.sin (-165707065 / 2) = -1 := by
  unfold tableLibm
  simp only
  rw [if_neg (by norm_num), if_neg (by norm_num), if_pos trivial]

/-! ## Offsets under a bounded math library -/

theorem toCInt_eq_some (z : ℚ) (n : Int) (h : toCInt (some z) = some n) : n = truncQ z := by
  unfold toCInt at h
  simp only at h
  split_ifs at h
  simpa using h.symm

theorem toCInt_toDouble_eq_some (p : ℚ) (n : Int) (h : toCInt (toDouble p) = some n) :
    n = truncQ (roundDouble p) := by
  unfold toDouble at h
  split_ifs at h
  · exact toCInt_eq_some _ _ h
  · simp [toCInt] at h

/-- With `|sin| ≤ 1`, `offset_x` is the cast of a finite double whose
truncation is no larger in magnitude than the amplitude. -/
theorem offset_x_of_bounded (L : Libm) (hs : ∀ x, |L.sin x| ≤ 1) (amplitude frame : Int)
    (ha : isInt32 amplitude) (hf : isInt32 frame) :
    offset_x L amplitude frame
        = toCInt (some (roundDouble (L.sin ((frame : ℚ) / 2) * amplitude)))
      ∧ |truncQ (roundDouble (L.sin ((frame : ℚ) / 2) * amplitude))| ≤ |amplitude| := by
  have h := scaled_product (L.sin ((frame : ℚ) / 2)) amplitude (hs _) ha
  rw [offset_x_eq L amplitude frame hf, h.1]
  exact ⟨rfl, h.2⟩

/-- With `|cos| ≤ 1`, `offset_y` is the cast of a finite double whose
truncation is no larger in magnitude than the amplitude. -/
theorem offset_y_of_bounded (L : Libm) (hc : ∀ x, |L.cos x| ≤ 1) (amplitude frame : Int)
    (ha : isInt32 amplitude) (hf : isInt32 frame) :
    offset_y L amplitude frame
        = toCInt (some (roundDouble
            (L.cos (roundDouble ((frame : ℚ) * (3152519739159347 / 4503599627370496)))
              * amplitude)))
      ∧ |truncQ (roundDouble
            (L.cos (roundDouble ((frame : ℚ) * (3152519739159347 / 4503599627370496)))
              * amplitude))| ≤ |amplitude| := by
  have h := scaled_product
    (L.cos (roundDouble ((frame : ℚ) * (3152519739159347 / 4503599627370496))))
    amplitude (hc _) ha
  rw [offset_y_eq L amplitude frame hf, h.1]
  exact ⟨rfl, h.2⟩

/-- A truncation bounded by an amplitude other than `INT_MIN` is an `int`. -/
theorem toCInt_of_abs_le (z : ℚ) (amplitude : Int)
    (ha : -2 ^ 31 < amplitude ∧ amplitude ≤ 2 ^ 31 - 1) (h : |truncQ z| ≤ |amplitude|) :
    toCInt (some z) = some (truncQ z) := by
  apply toCInt_some
  have hA : |amplitude| ≤ 2 ^ 31 - 1 := by
    rw [abs_le]
    omega
  rw [abs_le] at h
  constructor <;> omega

/-- Under a bounded math library both offsets are defined whenever the
amplitude is not `INT_MIN`. -/
theorem offsets_defined (L : Libm) (hs : ∀ x, |L.sin x| ≤ 1) (hc : ∀ x, |L.cos x| ≤ 1)
    (amplitude frame : Int) (ha : -2 ^ 31 < amplitude ∧ amplitude ≤ 2 ^ 31 - 1)
    (hf : isInt32 frame) :
    ∃ ox oy, offset_x L amplitude frame = some ox ∧ offset_y L amplitude frame = some oy := by
  have hai : isInt32 amplitude := ⟨by omega, ha.2⟩
  have hx := offset_x_of_bounded L hs amplitude frame hai hf
  have hy := offset_y_of_bounded L hc amplitude frame hai hf
  exact ⟨_, _, by rw [hx.1, toCInt_of_abs_le _ _ ha hx.2],
    by rw [hy.1, toCInt_of_abs_le _ _ ha hy.2]⟩

section
variable {σ : Type}

/-- Once its arguments are parsed, `apply_screen_shake` follows one of the
paths of `ShakePath`. -/
theorem apply_screen_shake_path (H : Host σ) (L : Libm) (args : Obj) (s : σ)
    (surface : Obj) (amplitude frame : Int)
    (hparse : H.parseTuple_Oii s args = .ok (surface, amplitude, frame)) :
    ShakePath H L s surface amplitude frame (apply_screen_shake H L args s) := by
  cases hattr : H.hasAttr s surface "get_size" with
  | false =>
    have h : apply_screen_shake H L args s = (.null, ⟨s, some notASurface, []⟩) := by
      simp [apply_screen_shake, World.enter, World.raise, hparse, hattr]
    rw [h]
    exact .noAttr hattr
  | true =>
    rcases h1 : H.perform s (.get_size surface) with ⟨r1, s1⟩
    rcases r1 with t | e
    swap
    · have h : apply_screen_shake H L args s
          = (.null, ⟨s1, some e, [⟨.get_size surface, .raised e⟩]⟩) := by
        simp [apply_screen_shake, World.enter, World.invoke, hparse, hattr, h1,
          Reply.error?]
      rw [h]
      exact .sizeFails e s1 hattr h1
    rcases h2 : H.itemAsLong s1 t 0 with ⟨⟨v0, e0⟩, s2⟩
    rcases h3 : H.itemAsLong s2 t 1 with ⟨⟨v1, e1⟩, s3⟩
    rcases h4 : H.perform s3 (.importModule "pygame") with ⟨r4, s4⟩
    rcases r4 with m | e
    swap
    · have h : apply_screen_shake H L args s
          = (.null, ⟨s4, some e,
              [⟨.get_size surface, .ok t⟩, ⟨.importModule "pygame", .raised e⟩]⟩) := by
        simp [apply_screen_shake, World.enter, World.invoke, World.readInt, hparse, hattr,
          h1, h2, h3, h4, positionalArgs, Reply.error?]
      rw [h]
      exact .importFails t s1 v0 v1 e0 e1 s2 s3 e s4 hattr h1 h2 h3 h4
    rcases h5 : H.perform s4 (.Surface m [.int (wrapInt32 v0), .int (wrapInt32 v1)]) with ⟨r5, s5⟩
    rcases r5 with n | e
    swap
    · have h : apply_screen_shake H L args s
          = (.null, ⟨s5, some e,
              [⟨.get_size surface, .ok t⟩, ⟨.importModule "pygame", .ok m⟩,
               ⟨.Surface m [.int (wrapInt32 v0), .int (wrapInt32 v1)], .raised e⟩]⟩) := by
        simp [apply_screen_shake, World.enter, World.invoke, World.readInt, hparse, hattr,
          h1, h2, h3, h4, h5, positionalArgs, Reply.error?]
      rw [h]
      exact .surfaceFails t s1 v0 v1 e0 e1 s2 s3 m s4 e s5 hattr h1 h2 h3 h4 h5
    cases hx : offset_x L amplitude frame with
    | none =>
      have h : apply_screen_shake H L args s
          = (.undefined, ⟨s5, none,
              [⟨.get_size surface, .ok t⟩, ⟨.importModule "pygame", .ok m⟩,
               ⟨.Surface m [.int (wrapInt32 v0), .int (wrapInt32 v1)], .ok n⟩]⟩) := by
                  simp [apply_screen_shake, World.enter, World.invoke, World.readInt, hparse, hattr,
            h1, h2, h3, h4, h5, hx, positionalArgs, Reply.error?]
      rw [h]
      exact .castUndefined t s1 v0 v1 e0 e1 s2 s3 m s4 n s5 hattr h1 h2 h3 h4 h5 (.inl hx)
    | some ox =>
      cases hy : offset_y L amplitude frame with
      | none =>
        have h : apply_screen_shake H L args s
            = (.undefined, ⟨s5, none,
                [⟨.get_size surface, .ok t⟩, ⟨.importModule "pygame", .ok m⟩,
                 ⟨.Surface m [.int (wrapInt32 v0), .int (wrapInt32 v1)], .ok n⟩]⟩) := by
                      simp [apply_screen_shake, World.enter, World.invoke, World.readInt, hparse, hattr,
              h1, h2, h3, h4, h5, hx, hy, positionalArgs, Reply.error?]
        rw [h]
        exact .castUndefined t s1 v0 v1 e0 e1 s2 s3 m s4 n s5 hattr h1 h2 h3 h4 h5 (.inr hy)
      | some oy =>
        rcases h6 : H.perform s5 (.blit n surface ox oy) with ⟨r6, s6⟩
        rcases r6 with b | e
        · have h : apply_screen_shake H L args s
              = (.object n, ⟨s6, none,
                  [⟨.get_size surface, .ok t⟩, ⟨.importModule "pygame", .ok m⟩,
                   ⟨.Surface m [.int (wrapInt32 v0), .int (wrapInt32 v1)], .ok n⟩,
                   ⟨.blit n surface ox oy, .ok b⟩]⟩) := by
                          simp [apply_screen_shake, World.enter, World.invoke, World.readInt, hparse, hattr,
                h1, h2, h3, h4, h5, hx, hy, h6, positionalArgs, Reply.error?]
          rw [h]
          exact .done t s1 v0 v1 e0 e1 s2 s3 m s4 n s5 ox oy b s6 hattr h1 h2 h3 h4 h5 hx hy h6
        · have h : apply_screen_shake H L args s
              = (.null, ⟨s6, some e,
                  [⟨.get_size surface, .ok t⟩, ⟨.importModule "pygame", .ok m⟩,
                   ⟨.Surface m [.int (wrapInt32 v0), .int (wrapInt32 v1)], .ok n⟩,
                   ⟨.blit n surface ox oy, .raised e⟩]⟩) := by
            simp [apply_screen_shake, World.enter, World.invoke, World.readInt, hparse, hattr,
              h1, h2, h3, h4, h5, hx, hy, h6, positionalArgs, Reply.error?]
          rw [h]
          exact .blitFails t s1 v0 v1 e0 e1 s2 s3 m s4 n s5 ox oy e s6
            hattr h1 h2 h3 h4 h5 hx hy h6

/-- Once its arguments are parsed, `apply_wave_effect` follows one of the paths
of `WavePath`. -/
theorem apply_wave_effect_path (H : Host σ) (args : Obj) (s : σ)
    (surface : Obj) (time amplitude frequency : CFloat)
    (hparse : H.parseTuple_Offf s args = .ok (surface, time, amplitude, frequency)) :
    WavePath H s surface (apply_wave_effect H args s) := by
  rcases h1 : H.perform s (.get_size surface) with ⟨r1, s1⟩
  rcases r1 with t | e
  swap
  · have h : apply_wave_effect H args s
        = (.null, ⟨s1, some e, [⟨.get_size surface, .raised e⟩]⟩) := by
      simp [apply_wave_effect, World.enter, World.invoke, hparse, h1, Reply.error?]
    rw [h]
    exact .sizeFails e s1 h1
  rcases h2 : H.itemAsLong s1 t 0 with ⟨⟨v0, e0⟩, s2⟩
  rcases h3 : H.itemAsLong s2 t 1 with ⟨⟨v1, e1⟩, s3⟩
  rcases h4 : H.perform s3 (.importModule "pygame") with ⟨r4, s4⟩
  rcases r4 with m | e
  swap
  · have h : apply_wave_effect H args s
        = (.null, ⟨s4, some e,
            [⟨.get_size surface, .ok t⟩, ⟨.importModule "pygame", .raised e⟩]⟩) := by
      simp [apply_wave_effect, World.enter, World.invoke, World.readInt, hparse,
        h1, h2, h3, h4, positionalArgs, Reply.error?]
    rw [h]
    exact .importFails t s1 v0 v1 e0 e1 s2 s3 e s4 h1 h2 h3 h4
  rcases h5 : H.perform s4 (.importModule "pygame.surfarray") with ⟨r5, s5⟩
  rcases r5 with a | e
  swap
  · have h : apply_wave_effect H args s
        = (.null, ⟨s5, some e,
            [⟨.get_size surface, .ok t⟩, ⟨.importModule "pygame", .ok m⟩,
             ⟨.importModule "pygame.surfarray", .raised e⟩]⟩) := by
      simp [apply_wave_effect, World.enter, World.invoke, World.readInt, hparse,
        h1, h2, h3, h4, h5, positionalArgs, Reply.error?]
    rw [h]
    exact .surfarrayFails t s1 v0 v1 e0 e1 s2 s3 m s4 e s5 h1 h2 h3 h4 h5
  rcases h6 : H.perform s5 (.Surface m [.int (wrapInt32 v0), .int (wrapInt32 v1)]) with ⟨r6, s6⟩
  rcases r6 with n | e
  swap
  · have h : apply_wave_effect H args s
        = (.null, ⟨s6, some e,
            [⟨.get_size surface, .ok t⟩, ⟨.importModule "pygame", .ok m⟩,
             ⟨.importModule "pygame.surfarray", .ok a⟩,
             ⟨.Surface m [.int (wrapInt32 v0), .int (wrapInt32 v1)], .raised e⟩]⟩) := by
      simp [apply_wave_effect, World.enter, World.invoke, World.readInt, hparse,
        h1, h2, h3, h4, h5, h6, positionalArgs, Reply.error?]
    rw [h]
    exact .surfaceFails t s1 v0 v1 e0 e1 s2 s3 m s4 a s5 e s6 h1 h2 h3 h4 h5 h6
  rcases h7 : H.perform s6 (.array3d a surface) with ⟨r7, s7⟩
  rcases h8 : H.perform s7 (.array3d a n) with ⟨r8, s8⟩
  rcases r7 with src | ea
  swap
  · have h : apply_wave_effect H args s
        = (.null, ⟨s8, r8.error?,
            [⟨.get_size surface, .ok t⟩, ⟨.importModule "pygame", .ok m⟩,
             ⟨.importModule "pygame.surfarray", .ok a⟩,
             ⟨.Surface m [.int (wrapInt32 v0), .int (wrapInt32 v1)], .ok n⟩,
             ⟨.array3d a surface, .raised ea⟩, ⟨.array3d a n, r8⟩]⟩) := by
      cases r8 <;>
        simp [apply_wave_effect, World.enter, World.invoke, World.readInt, hparse,
          h1, h2, h3, h4, h5, h6, h7, h8, positionalArgs, Reply.error?]
    rw [h]
    exact .srcArrayFails t s1 v0 v1 e0 e1 s2 s3 m s4 a s5 n s6 ea s7 r8 s8
      h1 h2 h3 h4 h5 h6 h7 h8
  rcases r8 with dst | eb
  · have h : apply_wave_effect H args s
        = (.object surface, ⟨s8, none,
            [⟨.get_size surface, .ok t⟩, ⟨.importModule "pygame", .ok m⟩,
             ⟨.importModule "pygame.surfarray", .ok a⟩,
             ⟨.Surface m [.int (wrapInt32 v0), .int (wrapInt32 v1)], .ok n⟩,
             ⟨.array3d a surface, .ok src⟩, ⟨.array3d a n, .ok dst⟩]⟩) := by
              simp [apply_wave_effect, World.enter, World.invoke, World.readInt, hparse,
          h1, h2, h3, h4, h5, h6, h7, h8, positionalArgs, Reply.error?]
    rw [h]
    exact .done t s1 v0 v1 e0 e1 s2 s3 m s4 a s5 n s6 src s7 dst s8
      h1 h2 h3 h4 h5 h6 h7 h8
  · have h : apply_wave_effect H args s
        = (.null, ⟨s8, some eb,
            [⟨.get_size surface, .ok t⟩, ⟨.importModule "pygame", .ok m⟩,
             ⟨.importModule "pygame.surfarray", .ok a⟩,
             ⟨.Surface m [.int (wrapInt32 v0), .int (wrapInt32 v1)], .ok n⟩,
             ⟨.array3d a surface, .ok src⟩, ⟨.array3d a n, .raised eb⟩]⟩) := by
      simp [apply_wave_effect, World.enter, World.invoke, World.readInt, hparse,
        h1, h2, h3, h4, h5, h6, h7, h8, positionalArgs, Reply.error?]
    rw [h]
    exact .dstArrayFails t s1 v0 v1 e0 e1 s2 s3 m s4 a s5 n s6 src s7 eb s8
      h1 h2 h3 h4 h5 h6 h7 h8

end

/-! ## Claims about the call sequences -/

section
variable {σ : Type}

/-- C8. When the first argument has no `get_size` attribute (and the arguments
parse as an object and two ints), `screen_shake` returns `NULL` with the
`TypeError` "First argument must be a pygame Surface" pending, and it has made
no Python-level call: the trace is empty and the host state is untouched. -/
theorem screen_shake_rejects_non_surface (H : Host σ) (L : Libm) (args : Obj) (s : σ)
    (surface : Obj) (amplitude frame : Int)
    (hparse : H.parseTuple_Oii s args = .ok (surface, amplitude, frame))
    (hattr : H.hasAttr s surface "get_size" = false) :
    apply_screen_shake H L args s
      = (.null, ⟨s, some ⟨"TypeError", "First argument must be a pygame Surface"⟩, []⟩) := by
  simp [apply_screen_shake, World.enter, World.raise, notASurface, hparse, hattr]

/-- Witness for C8 on `noSizeHost`. -/
theorem screen_shake_rejects_non_surface_witness :
    apply_screen_shake noSizeHost tableLibm 0 0
      = (.null, ⟨0, some ⟨"TypeError", "First argument must be a pygame Surface"⟩, []⟩) :=
  screen_shake_rejects_non_surface noSizeHost tableLibm 0 0 1 10 1 rfl rfl

/-- C1. When the arguments parse and every call `wave_effect` makes into the
host succeeds, it returns the surface it was given, whatever `time`,
`amplitude` and `frequency` are; the calls it made are `get_size`, the import
of both modules, the `Surface` construction and the two `array3d` calls. -/
theorem wave_effect_returns_input (H : Host σ) (args : Obj) (s : σ)
    (surface : Obj) (time amplitude frequency : CFloat)
    (hparse : H.parseTuple_Offf s args = .ok (surface, time, amplitude, frequency))
    (hok : ∀ ev ∈ (apply_wave_effect H args s).2.trace, ∃ o, ev.reply = .ok o) :
    (apply_wave_effect H args s).1 = .object surface ∧
    ∃ m a n w h, (apply_wave_effect H args s).2.trace.map Event.call
      = [.get_size surface, .importModule "pygame", .importModule "pygame.surfarray",
         .Surface m [.int w, .int h], .array3d a surface, .array3d a n] := by
  have hp := apply_wave_effect_path H args s surface time amplitude frequency hparse
  revert hok
  generalize apply_wave_effect H args s = out at hp
  intro hok
  cases hp with
  | sizeFails e s1 h1 => simp at hok
  | importFails t s1 v0 v1 e0 e1 s2 s3 e s4 h1 h2 h3 h4 => simp at hok
  | surfarrayFails t s1 v0 v1 e0 e1 s2 s3 m s4 e s5 h1 h2 h3 h4 h5 => simp at hok
  | surfaceFails t s1 v0 v1 e0 e1 s2 s3 m s4 a s5 e s6 h1 h2 h3 h4 h5 h6 => simp at hok
  | srcArrayFails t s1 v0 v1 e0 e1 s2 s3 m s4 a s5 n s6 ea s7 rb s8 h1 h2 h3 h4 h5 h6 h7 h8 =>
    simp at hok
  | dstArrayFails t s1 v0 v1 e0 e1 s2 s3 m s4 a s5 n s6 src s7 eb s8 h1 h2 h3 h4 h5 h6 h7 h8 =>
    simp at hok
  | done t s1 v0 v1 e0 e1 s2 s3 m s4 a s5 n s6 src s7 dst s8 h1 h2 h3 h4 h5 h6 h7 h8 =>
    exact ⟨rfl, m, a, n, wrapInt32 v0, wrapInt32 v1, by simp⟩

/-- Witness for C1 on `okHost`: the input surface `1` comes back. -/
theorem wave_effect_returns_input_witness :
    (apply_wave_effect okHost 0 0).1 = .object 1 :=
  (wave_effect_returns_input okHost 0 0 1 (.finite 0) (.finite 5) (.finite 2) rfl
    (by simp [apply_wave_effect, okHost, World.enter, World.invoke, World.readInt,
      positionalArgs])).1

/-- C4. The code does not construct the result as `Surface((w, h))`: the format
`"(ii)"` builds the tuple `(width, height)`, which `PyObject_CallMethod` takes
as the argument tuple, so the host is called as `Surface(width, height)` with
two positional ints.  On `okHost` (a 640 x 480 surface, amplitude 10, frame 1)
the run is successful, its calls are `get_size`, the import, `Surface(640, 480)`
and one blit of the input onto the object returned, and no call
`Surface((640, 480))` is made. -/
theorem screen_shake_surface_call :
    apply_screen_shake okHost tableLibm 0 0
      = (.object 4, ⟨4, none,
          [⟨.get_size 1, .ok 2⟩, ⟨.importModule "pygame", .ok 3⟩,
           ⟨.Surface 3 [.int 640, .int 480], .ok 4⟩, ⟨.blit 4 1 4 7, .ok 5⟩]⟩) ∧
    (∀ ev ∈ (apply_screen_shake okHost tableLibm 0 0).2.trace,
      ∀ m, ev.call ≠ .Surface m [.intPair 640 480]) := by
  have h : apply_screen_shake okHost tableLibm 0 0
      = (.object 4, ⟨4, none,
          [⟨.get_size 1, .ok 2⟩, ⟨.importModule "pygame", .ok 3⟩,
           ⟨.Surface 3 [.int 640, .int 480], .ok 4⟩, ⟨.blit 4 1 4 7, .ok 5⟩]⟩) := by
    simp [apply_screen_shake, okHost, World.enter, World.invoke, World.readInt,
      positionalArgs, Reply.error?, wrapInt32,
      offset_x_10_1 tableLibm tableLibm_sin_half, offset_y_10_1 tableLibm tableLibm_cos_d07]
  refine ⟨h, ?_⟩
  rw [h]
  intro ev hev m
  simp only [List.mem_cons, List.mem_singleton, List.not_mem_nil, or_false] at hev
  rcases hev with rfl | rfl | rfl | rfl <;> simp

/-- C3. Two successful `screen_shake` calls with the same amplitude and frame,
on any two hosts, host states and surfaces, blit at the same position `(ox, oy)`,
which is the value of the offset expressions for that amplitude and frame; every
blit of either run is at that position. -/
theorem screen_shake_offset_deterministic {τ : Type} (H1 : Host σ) (H2 : Host τ) (L : Libm)
    (args1 args2 : Obj) (s1 : σ) (s2 : τ) (surface1 surface2 : Obj) (amplitude frame : Int)
    (r1 r2 : Obj)
    (hparse1 : H1.parseTuple_Oii s1 args1 = .ok (surface1, amplitude, frame))
    (hparse2 : H2.parseTuple_Oii s2 args2 = .ok (surface2, amplitude, frame))
    (hret1 : (apply_screen_shake H1 L args1 s1).1 = .object r1)
    (hret2 : (apply_screen_shake H2 L args2 s2).1 = .object r2) :
    ∃ ox oy, offset_x L amplitude frame = some ox ∧ offset_y L amplitude frame = some oy ∧
      (∃ ev ∈ (apply_screen_shake H1 L args1 s1).2.trace,
        ev.call = .blit r1 surface1 ox oy) ∧
      (∃ ev ∈ (apply_screen_shake H2 L args2 s2).2.trace,
        ev.call = .blit r2 surface2 ox oy) ∧
      (∀ ev ∈ (apply_screen_shake H1 L args1 s1).2.trace,
        ∀ d src x y, ev.call = .blit d src x y → x = ox ∧ y = oy) ∧
      (∀ ev ∈ (apply_screen_shake H2 L args2 s2).2.trace,
        ∀ d src x y, ev.call = .blit d src x y → x = ox ∧ y = oy) := by
  have hp1 := apply_screen_shake_path H1 L args1 s1 surface1 amplitude frame hparse1
  have hp2 := apply_screen_shake_path H2 L args2 s2 surface2 amplitude frame hparse2
  revert hret1 hret2
  generalize apply_screen_shake H1 L args1 s1 = out1 at hp1
  generalize apply_screen_shake H2 L args2 s2 = out2 at hp2
  intro hret1 hret2
  cases hp1 with
  | noAttr ha => simp at hret1
  | sizeFails e s1' ha h1 => simp at hret1
  | importFails t' s1' v0 v1 e0' e1' s2' s3' e s4 ha h1 h2 h3 h4 => simp at hret1
  | surfaceFails t' s1' v0 v1 e0' e1' s2' s3' m s4 e s5 ha h1 h2 h3 h4 h5 => simp at hret1
  | castUndefined t' s1' v0 v1 e0' e1' s2' s3' m s4 n s5 ha h1 h2 h3 h4 h5 hu => simp at hret1
  | blitFails t' s1' v0 v1 e0' e1' s2' s3' m s4 n s5 ox oy e s6 ha h1 h2 h3 h4 h5 hx hy h6 =>
    simp at hret1
  | done t' s1' v0 v1 e0' e1' s2' s3' m s4 n s5 ox oy b s6 ha h1 h2 h3 h4 h5 hx hy h6 =>
    cases hp2 with
    | noAttr ha => simp at hret2
    | sizeFails e s1' ha h1 => simp at hret2
    | importFails t' s1' v0 v1 e0' e1' s2' s3' e s4 ha h1 h2 h3 h4 => simp at hret2
    | surfaceFails t' s1' v0 v1 e0' e1' s2' s3' m s4 e s5 ha h1 h2 h3 h4 h5 => simp at hret2
    | castUndefined t' s1' v0 v1 e0' e1' s2' s3' m s4 n s5 ha h1 h2 h3 h4 h5 hu =>
      simp at hret2
    | blitFails t' s1' v0 v1 e0' e1' s2' s3' m s4 n s5 ox' oy' e s6 ha h1 h2 h3 h4 h5
        hx' hy' h6 =>
      simp at hret2
    | done t2 s21 w0 w1 f0 f1 s22 s23 m2 s24 n2 s25 ox' oy' b2 s26 ha' g1 g2 g3 g4 g5
        hx' hy' g6 =>
      simp only [Ret.object.injEq] at hret1 hret2
      subst hret1 hret2
      rw [hx] at hx'
      rw [hy] at hy'
      simp only [Option.some.injEq] at hx' hy'
      subst hx' hy'
      refine ⟨ox, oy, hx, hy, ⟨_, List.mem_of_mem_getLast? rfl, rfl⟩,
        ⟨_, List.mem_of_mem_getLast? rfl, rfl⟩, ?_, ?_⟩
      · intro ev hev d src x y hc
        simp only [List.mem_cons, List.mem_singleton, List.not_mem_nil, or_false] at hev
        rcases hev with rfl | rfl | rfl | rfl <;> simp at hc
        exact ⟨hc.2.2.1.symm, hc.2.2.2.symm⟩
      · intro ev hev d src x y hc
        simp only [List.mem_cons, List.mem_singleton, List.not_mem_nil, or_false] at hev
        rcases hev with rfl | rfl | rfl | rfl <;> simp at hc
        exact ⟨hc.2.2.1.symm, hc.2.2.2.symm⟩

/-- Witness for C3: a 640 x 480 and a 1920 x 1080 surface, on different hosts
in different states, are blitted at the same position for amplitude 10 and
frame 1. -/
theorem screen_shake_offset_deterministic_witness :
    ∃ ox oy, offset_x tableLibm 10 1 = some ox ∧ offset_y tableLibm 10 1 = some oy ∧
      (∃ ev ∈ (apply_screen_shake okHost tableLibm 0 0).2.trace, ev.call = .blit 4 1 ox oy) ∧
      (∃ ev ∈ (apply_screen_shake wideHost tableLibm 0 5).2.trace, ev.call = .blit 9 1 ox oy) :=
  have h := screen_shake_offset_deterministic okHost wideHost tableLibm 0 0 0 5 1 1 10 1 4 9
    rfl rfl
    (by
      simp [apply_screen_shake, okHost, World.enter, World.invoke, World.readInt,
        positionalArgs, offset_x_10_1 tableLibm tableLibm_sin_half, offset_y_10_1 tableLibm tableLibm_cos_d07])
    (by
      simp [apply_screen_shake, wideHost, World.enter, World.invoke, World.readInt,
        positionalArgs, offset_x_10_1 tableLibm tableLibm_sin_half, offset_y_10_1 tableLibm tableLibm_cos_d07])
  match h with
  | ⟨ox, oy, h1, h2, h3, h4, _⟩ => ⟨ox, oy, h1, h2, h3, h4⟩

/-- C5. On a host whose `array3d` raises for the input surface, `wave_effect`
still makes the second `array3d` call after the failed one, and then returns
`NULL` with no exception pending: the error of the host is lost. -/
theorem wave_effect_calls_after_failure :
    apply_wave_effect srcArrayFailHost 0 0
      = (.null, ⟨5, none,
          [⟨.get_size 1, .ok 2⟩, ⟨.importModule "pygame", .ok 3⟩,
           ⟨.importModule "pygame.surfarray", .ok 4⟩,
           ⟨.Surface 3 [.int 640, .int 480], .ok 5⟩,
           ⟨.array3d 4 1, .raised ⟨"ValueError", "unsupported bit depth"⟩⟩,
           ⟨.array3d 4 5, .ok 6⟩]⟩) ∧
    ¬ PropagatesFailure (apply_wave_effect srcArrayFailHost 0 0) := by
  have h : apply_wave_effect srcArrayFailHost 0 0
      = (.null, ⟨5, none,
          [⟨.get_size 1, .ok 2⟩, ⟨.importModule "pygame", .ok 3⟩,
           ⟨.importModule "pygame.surfarray", .ok 4⟩,
           ⟨.Surface 3 [.int 640, .int 480], .ok 5⟩,
           ⟨.array3d 4 1, .raised ⟨"ValueError", "unsupported bit depth"⟩⟩,
           ⟨.array3d 4 5, .ok 6⟩]⟩) := by
    simp [apply_wave_effect, srcArrayFailHost, World.enter, World.invoke, World.readInt,
      positionalArgs, Reply.error?, wrapInt32]
  refine ⟨h, ?_⟩
  rw [h]
  intro hp
  have := hp.2.1 ⟨.array3d 4 1, .raised ⟨"ValueError", "unsupported bit depth"⟩⟩ (by simp)
  simp at this

/-- Every other call is checked right after it is made.  In `screen_shake` a
failed call is the last one made, the function returns `NULL` and the exception
stays pending.  In `wave_effect` a failed call makes the function return `NULL`;
every call before the last one succeeded or is the `array3d` call on the input
surface; and when the last call failed its exception is the pending one. -/
theorem failure_propagates_elsewhere (H : Host σ) (L : Libm) (args : Obj) (s : σ)
    (surface : Obj) (amplitude frame : Int) (args' : Obj) (s' : σ) (surface' : Obj)
    (time amp freq : CFloat)
    (hparse : H.parseTuple_Oii s args = .ok (surface, amplitude, frame))
    (hparse' : H.parseTuple_Offf s' args' = .ok (surface', time, amp, freq)) :
    PropagatesFailure (apply_screen_shake H L args s) ∧
    (∀ ev ∈ (apply_wave_effect H args' s').2.trace, ∀ e, ev.reply = .raised e →
      (apply_wave_effect H args' s').1 = .null) ∧
    (∀ ev ∈ (apply_wave_effect H args' s').2.trace.dropLast,
      (∃ o, ev.reply = .ok o) ∨ ∃ a, ev.call = .array3d a surface') ∧
    (∀ c e, (apply_wave_effect H args' s').2.trace.getLast? = some ⟨c, .raised e⟩ →
      (apply_wave_effect H args' s').2.err = some e) := by
  have hp := apply_screen_shake_path H L args s surface amplitude frame hparse
  have hq := apply_wave_effect_path H args' s' surface' time amp freq hparse'
  generalize apply_screen_shake H L args s = out at hp
  generalize apply_wave_effect H args' s' = out' at hq
  constructor
  · unfold PropagatesFailure
    cases hp <;> simp
  · cases hq <;> simp [Reply.error?]
    intro c e _ hrb
    rw [hrb]

/-- C6, as stated, fails: when the first argument has no `get_size` attribute,
`screen_shake` fails with the module's own `TypeError`, although argument
parsing succeeded and no call into the host was made. -/
theorem screen_shake_raises_own_error :
    apply_screen_shake noSizeHost tableLibm 0 0
      = (.null, ⟨0, some ⟨"TypeError", "First argument must be a pygame Surface"⟩, []⟩) ∧
    ¬ ErrorFromHost (noSizeHost.parseTuple_Oii 0 0).error?
        (apply_screen_shake noSizeHost tableLibm 0 0) := by
  have h : apply_screen_shake noSizeHost tableLibm 0 0
      = (.null, ⟨0, some ⟨"TypeError", "First argument must be a pygame Surface"⟩, []⟩) := by
    simp [apply_screen_shake, noSizeHost, World.enter, World.raise, notASurface]
  refine ⟨h, ?_⟩
  rw [h]
  unfold ErrorFromHost
  simp [noSizeHost, Reply.error?]

/-- C6, amended. Whenever `screen_shake` fails, the pending error was raised by
argument parsing or by a failed call into the host, or it is the module's own
`TypeError` for a first argument without a `get_size` attribute.  Whenever
`wave_effect` fails, the pending error was raised by argument parsing or by a
failed call into the host, unless its first `array3d` call failed and the second
one succeeded, a case about which nothing is stated. -/
theorem errors_from_host_or_guard (H : Host σ) (L : Libm) (args : Obj) (s : σ)
    (args' : Obj) (s' : σ) :
    ((apply_screen_shake H L args s).1 = .null →
      ∃ e, (apply_screen_shake H L args s).2.err = some e ∧
        ((H.parseTuple_Oii s args).error? = some e ∨
         (∃ ev ∈ (apply_screen_shake H L args s).2.trace, ev.reply = .raised e) ∨
         (e = ⟨"TypeError", "First argument must be a pygame Surface"⟩ ∧
          ∃ surface amplitude frame,
            H.parseTuple_Oii s args = .ok (surface, amplitude, frame) ∧
            H.hasAttr s surface "get_size" = false))) ∧
    ((apply_wave_effect H args' s').1 = .null →
      (∃ e, (apply_wave_effect H args' s').2.err = some e ∧
        ((H.parseTuple_Offf s' args').error? = some e ∨
         ∃ ev ∈ (apply_wave_effect H args' s').2.trace, ev.reply = .raised e)) ∨
      (∃ pre a x n e o, (apply_wave_effect H args' s').2.trace
        = pre ++ [⟨.array3d a x, .raised e⟩, ⟨.array3d a n, .ok o⟩])) := by
  constructor
  · cases hparse : H.parseTuple_Oii s args with
    | raised e =>
      intro _
      refine ⟨e, ?_, .inl rfl⟩
      simp [apply_screen_shake, World.enter, World.raise, hparse]
    | ok v =>
      obtain ⟨surface, amplitude, frame⟩ := v
      have hp := apply_screen_shake_path H L args s surface amplitude frame hparse
      generalize apply_screen_shake H L args s = out at hp
      intro hnull
      cases hp with
      | noAttr ha => exact ⟨_, rfl, .inr (.inr ⟨rfl, surface, amplitude, frame, rfl, ha⟩)⟩
      | sizeFails e s1' ha h1 =>
        exact ⟨e, rfl, .inr (.inl ⟨_, List.mem_of_mem_getLast? rfl, rfl⟩)⟩
      | importFails t' s1' v0 v1 e0' e1' s2' s3' e s4 ha h1 h2 h3 h4 =>
        exact ⟨e, rfl, .inr (.inl ⟨_, List.mem_of_mem_getLast? rfl, rfl⟩)⟩
      | surfaceFails t' s1' v0 v1 e0' e1' s2' s3' m s4 e s5 ha h1 h2 h3 h4 h5 =>
        exact ⟨e, rfl, .inr (.inl ⟨_, List.mem_of_mem_getLast? rfl, rfl⟩)⟩
      | castUndefined t' s1' v0 v1 e0' e1' s2' s3' m s4 n s5 ha h1 h2 h3 h4 h5 hu =>
        simp at hnull
      | blitFails t' s1' v0 v1 e0' e1' s2' s3' m s4 n s5 ox oy e s6 ha h1 h2 h3 h4 h5 hx hy h6 =>
        exact ⟨e, rfl, .inr (.inl ⟨_, List.mem_of_mem_getLast? rfl, rfl⟩)⟩
      | done t' s1' v0 v1 e0' e1' s2' s3' m s4 n s5 ox oy b s6 ha h1 h2 h3 h4 h5 hx hy h6 =>
        simp at hnull
  · cases hparse : H.parseTuple_Offf s' args' with
    | raised e =>
      intro _
      refine .inl ⟨e, ?_, .inl rfl⟩
      simp [apply_wave_effect, World.enter, World.raise, hparse]
    | ok v =>
      obtain ⟨surface, time, amp, freq⟩ := v
      have hq := apply_wave_effect_path H args' s' surface time amp freq hparse
      generalize apply_wave_effect H args' s' = out at hq
      intro hnull
      cases hq with
      | sizeFails e s1 h1 =>
        exact .inl ⟨e, rfl, .inr ⟨_, List.mem_of_mem_getLast? rfl, rfl⟩⟩
      | importFails t s1 v0 v1 e0 e1 s2 s3 e s4 h1 h2 h3 h4 =>
        exact .inl ⟨e, rfl, .inr ⟨_, List.mem_of_mem_getLast? rfl, rfl⟩⟩
      | surfarrayFails t s1 v0 v1 e0 e1 s2 s3 m s4 e s5 h1 h2 h3 h4 h5 =>
        exact .inl ⟨e, rfl, .inr ⟨_, List.mem_of_mem_getLast? rfl, rfl⟩⟩
      | surfaceFails t s1 v0 v1 e0 e1 s2 s3 m s4 a s5 e s6 h1 h2 h3 h4 h5 h6 =>
        exact .inl ⟨e, rfl, .inr ⟨_, List.mem_of_mem_getLast? rfl, rfl⟩⟩
      | srcArrayFails t s1 v0 v1 e0 e1 s2 s3 m s4 a s5 n s6 ea s7 rb s8 h1 h2 h3 h4 h5 h6 h7 h8 =>
        cases rb with
        | ok o =>
          exact .inr ⟨[⟨.get_size surface, .ok t⟩, ⟨.importModule "pygame", .ok m⟩,
            ⟨.importModule "pygame.surfarray", .ok a⟩,
            ⟨.Surface m [.int (wrapInt32 v0), .int (wrapInt32 v1)], .ok n⟩],
            a, surface, n, ea, o, rfl⟩
        | raised eb => exact .inl ⟨eb, rfl, .inr ⟨_, List.mem_of_mem_getLast? rfl, rfl⟩⟩
      | dstArrayFails t s1 v0 v1 e0 e1 s2 s3 m s4 a s5 n s6 src s7 eb s8 h1 h2 h3 h4 h5 h6 h7 h8 =>
        exact .inl ⟨eb, rfl, .inr ⟨_, List.mem_of_mem_getLast? rfl, rfl⟩⟩
      | done t s1 v0 v1 e0 e1 s2 s3 m s4 a s5 n s6 src s7 dst s8 h1 h2 h3 h4 h5 h6 h7 h8 =>
        simp at hnull

end

/-! ## Claims about the offset formula -/

section
variable {σ : Type}

/-- C7, as stated, fails for amplitude `INT_MIN`: at frame `-165707065` the
double nearest to the true `sin(frame * 0.5)` is `-1`, the product with
`-2147483648` is `2147483648`, and its conversion to `int` is out of range.  The
table library is bounded by one and returns that nearest double. -/
theorem offset_x_out_of_range :
    (∀ x, |tableLibm.sin x| ≤ 1) ∧ (∀ x, |tableLibm.cos x| ≤ 1) ∧
    |Real.sin (-165707065 / 2) - ((tableLibm.sin (-165707065 / 2) : ℚ) : ℝ)|
      < (2 : ℝ) ^ (-54 : Int) ∧
    isInt32 (-2147483648) ∧ isInt32 (-165707065) ∧
    offset_x tableLibm (-2147483648) (-165707065) = none := by
  refine ⟨tableLibm_sin_le, tableLibm_cos_le, ?_, by decide, by decide, ?_⟩
  · rw [tableLibm_sin_big]
    have := sin_near_neg_one
    push_cast
    exact this
  · rw [offset_x_eq _ _ _ (by decide)]
    have harg : (((-165707065 : Int) : ℚ) / 2) = -165707065 / 2 := by norm_num
    rw [harg, tableLibm_sin_big]
    have hprod : (-1 : ℚ) * ((-2147483648 : Int) : ℚ) = ((2147483648 : Int) : ℚ) := by
      norm_num
    rw [hprod]
    have hr : roundDouble ((2147483648 : Int) : ℚ) = ((2147483648 : Int) : ℚ) :=
      roundDouble_intCast _ (by decide)
    have hd : toDouble ((2147483648 : Int) : ℚ) = some ((2147483648 : Int) : ℚ) := by
      unfold toDouble
      rw [hr, if_pos]
      norm_num
    rw [hd]
    apply toCInt_none
    have ht : truncQ ((2147483648 : Int) : ℚ) = 2147483648 := by
      unfold truncQ
      rw [if_pos (by norm_num), Int.floor_intCast]
    rw [ht]
    decide

/-- C7, amended. With `|sin|, |cos| ≤ 1`: whenever a conversion is in range the
offset is at most the amplitude in magnitude; both conversions are in range
for every amplitude other than `INT_MIN`; and amplitude 0 gives `(0, 0)`. -/
theorem offset_bounded_by_amplitude (L : Libm) (hs : ∀ x, |L.sin x| ≤ 1)
    (hc : ∀ x, |L.cos x| ≤ 1) (amplitude frame : Int)
    (ha : isInt32 amplitude) (hf : isInt32 frame) :
    (∀ ox, offset_x L amplitude frame = some ox → |ox| ≤ |amplitude|) ∧
    (∀ oy, offset_y L amplitude frame = some oy → |oy| ≤ |amplitude|) ∧
    (amplitude ≠ -2 ^ 31 →
      ∃ ox oy, offset_x L amplitude frame = some ox ∧ offset_y L amplitude frame = some oy ∧
        isInt32 ox ∧ isInt32 oy) ∧
    (amplitude = 0 →
      offset_x L amplitude frame = some 0 ∧ offset_y L amplitude frame = some 0) := by
  have hx := offset_x_of_bounded L hs amplitude frame ha hf
  have hy := offset_y_of_bounded L hc amplitude frame ha hf
  have bx : ∀ ox, offset_x L amplitude frame = some ox → |ox| ≤ |amplitude| := by
    intro ox h
    rw [hx.1] at h
    rw [toCInt_eq_some _ _ h]
    exact hx.2
  have hby : ∀ oy, offset_y L amplitude frame = some oy → |oy| ≤ |amplitude| := by
    intro oy h
    rw [hy.1] at h
    rw [toCInt_eq_some _ _ h]
    exact hy.2
  have hdef : amplitude ≠ -2 ^ 31 →
      ∃ ox oy, offset_x L amplitude frame = some ox ∧ offset_y L amplitude frame = some oy := by
    intro hne
    exact offsets_defined L hs hc amplitude frame
      ⟨lt_of_le_of_ne ha.1 (Ne.symm hne), ha.2⟩ hf
  refine ⟨bx, hby, ?_, ?_⟩
  · intro hne
    obtain ⟨ox, oy, h1, h2⟩ := hdef hne
    have b1 := bx ox h1
    have b2 := hby oy h2
    have hA : |amplitude| ≤ 2 ^ 31 := by
      unfold isInt32 at ha
      rw [abs_le]
      omega
    have hA' : |amplitude| ≠ 2 ^ 31 := by
      intro h
      rcases abs_eq (by norm_num : (0 : Int) ≤ 2 ^ 31) |>.mp h with h | h
      · unfold isInt32 at ha
        omega
      · exact hne h
    refine ⟨ox, oy, h1, h2, ?_, ?_⟩
    · unfold isInt32
      rw [abs_le] at b1
      omega
    · unfold isInt32
      rw [abs_le] at b2
      omega
  · intro h0
    obtain ⟨ox, oy, h1, h2⟩ := hdef (by rw [h0]; norm_num)
    have b1 := bx ox h1
    have b2 := hby oy h2
    rw [h0] at b1 b2
    simp only [abs_zero, abs_nonpos_iff] at b1 b2
    rw [h1, h2, b1, b2]
    exact ⟨rfl, rfl⟩

/-- Witness for C7 (amended): with the table library, amplitude 10 and frame 1,
both conversions are in range. -/
theorem offset_bounded_by_amplitude_witness :
    ∃ ox oy, offset_x tableLibm 10 1 = some ox ∧ offset_y tableLibm 10 1 = some oy ∧
      isInt32 ox ∧ isInt32 oy :=
  (offset_bounded_by_amplitude tableLibm tableLibm_sin_le tableLibm_cos_le 10 1
    (by decide) (by decide)).2.2.1 (by decide)

/-- C9. With `|sin|, |cos| ≤ 1`, for every frame and every amplitude whose
negation is also an `int`, both offsets are defined and the offsets for
`-amplitude` are the negated offsets for `amplitude`. -/
theorem offset_odd_in_amplitude (L : Libm) (hs : ∀ x, |L.sin x| ≤ 1)
    (hc : ∀ x, |L.cos x| ≤ 1) (amplitude frame : Int)
    (ha : isInt32 amplitude) (hna : isInt32 (-amplitude)) (hf : isInt32 frame) :
    ∃ ox oy, offset_x L amplitude frame = some ox ∧ offset_y L amplitude frame = some oy ∧
      offset_x L (-amplitude) frame = some (-ox) ∧
      offset_y L (-amplitude) frame = some (-oy) := by
  have hr : -2 ^ 31 < amplitude ∧ amplitude ≤ 2 ^ 31 - 1 := by
    unfold isInt32 at ha hna
    omega
  have hrn : -2 ^ 31 < -amplitude ∧ -amplitude ≤ 2 ^ 31 - 1 := by
    unfold isInt32 at ha hna
    omega
  have hx := offset_x_of_bounded L hs amplitude frame ha hf
  have hy := offset_y_of_bounded L hc amplitude frame ha hf
  have hx' := offset_x_of_bounded L hs (-amplitude) frame hna hf
  have hy' := offset_y_of_bounded L hc (-amplitude) frame hna hf
  have eneg : ∀ c : ℚ, roundDouble (c * ((-amplitude : Int) : ℚ))
      = -roundDouble (c * (amplitude : ℚ)) := by
    intro c
    rw [← roundDouble_neg]
    congr 1
    push_cast
    ring
  refine ⟨truncQ (roundDouble (L.sin ((frame : ℚ) / 2) * amplitude)),
    truncQ (roundDouble
      (L.cos (roundDouble ((frame : ℚ) * (3152519739159347 / 4503599627370496)))
        * amplitude)), ?_, ?_, ?_, ?_⟩
  · rw [hx.1, toCInt_of_abs_le _ _ hr hx.2]
  · rw [hy.1, toCInt_of_abs_le _ _ hr hy.2]
  · rw [hx'.1, toCInt_of_abs_le _ _ hrn hx'.2, eneg, truncQ_neg]
  · rw [hy'.1, toCInt_of_abs_le _ _ hrn hy'.2, eneg, truncQ_neg]

/-- Witness for C9: the table library, amplitude 10, frame 7; the offsets for
amplitude `-10` are the negated ones. -/
theorem offset_odd_in_amplitude_witness :
    ∃ ox oy, offset_x tableLibm 10 7 = some ox ∧ offset_y tableLibm 10 7 = some oy ∧
      offset_x tableLibm (-10) 7 = some (-ox) ∧ offset_y tableLibm (-10) 7 = some (-oy) :=
  offset_odd_in_amplitude tableLibm tableLibm_sin_le tableLibm_cos_le 10 7
    (by decide) (by decide) (by decide)

end

end Shaders
